import Mathlib

/-!
# Paged-attention score reference (`main.cpp`)

A shallow embedding of the reference score computation `ref_compute_score`, of the
element-type classifier `aten_to_Xetla_dtype` and of the benchmark set-up in `main`,
together with the tensor-library operations these functions call.

Modelling conventions.

* A tensor is its size list together with its elements in row-major order (all tensors the
  program builds are contiguous).  Element arithmetic is exact: the element type is any
  semiring `α`; index tensors hold integers.
* A library call that throws is a function into `Except TorchError`; the first failing call
  aborts the computation, as the C++ exception does.
* `scores[i][j][k] = m` writes through three nested views; here the three sub-tensors are
  read, the innermost is overwritten, and each is put back into its parent.
* Sizes are naturals.  `seq_len / block_size` is the truncating signed division, and its
  conversion to `uint32_t` is taken modulo `2 ^ 32`.  An integer index in `[-n, n)` is
  accepted by the library and a negative one counts from the end.
* Integer division by zero (undefined behaviour in C++) is modelled as the failure
  `divideByZero`.  Loop counters are unbounded naturals; allocation never fails.
-/

namespace PagedAttention

/-! ## Tensor library model -/

/-- Failure classes of the library calls used by the program. -/
inductive TorchError where
  | indexError
  | runtimeError
  | divideByZero
  | internalAssert
  deriving DecidableEq

instance {ε β : Type} [DecidableEq ε] [DecidableEq β] : DecidableEq (Except ε β)
  | .ok a, .ok b =>
    if h : a = b then isTrue (by rw [h]) else isFalse (fun h2 => h (by cases h2; rfl))
  | .error a, .error b =>
    if h : a = b then isTrue (by rw [h]) else isFalse (fun h2 => h (by cases h2; rfl))
  | .ok _, .error _ => isFalse (fun h => by cases h)
  | .error _, .ok _ => isFalse (fun h => by cases h)

/-- Contiguous tensor: sizes and row-major elements. -/
structure Tensor (α : Type) where
  sizes : List Nat
  data : List α
  deriving DecidableEq

variable {α : Type}

/-- Number of dimensions, `dim()`. -/
def Tensor.dim (t : Tensor α) : Nat := t.sizes.length

/-- Number of elements, `numel()`. -/
def Tensor.numel (t : Tensor α) : Nat := t.sizes.prod

/-- Well-formedness: the element list has exactly `numel` entries. -/
def Tensor.WF (t : Tensor α) : Prop := t.data.length = t.numel

instance (t : Tensor α) : Decidable t.WF := by
  unfold Tensor.WF; infer_instance

/-- The call `size(d)` for a non-negative literal `d`. -/
def Tensor.size (t : Tensor α) (d : Nat) : Except TorchError Nat :=
  match t.sizes[d]? with
  | some n => .ok n
  | none => .error .indexError

/-- The `i`-th block of `m` consecutive elements of `l`. -/
def chunk (l : List α) (m i : Nat) : List α := (l.drop (i * m)).take m

/-- Bounds check and wrap-around of an integer index into a dimension of size `n`:
indices in `[-n, n)` are accepted, negative ones count from the end. -/
def wrap_index (index : Int) (n : Nat) : Except TorchError Nat :=
  if index < -(n : Int) ∨ (n : Int) ≤ index then .error .indexError
  else .ok (if index < 0 then index + n else index).toNat

/-- The call `t[index]` with an integer, that is `select(0, index)`. -/
def Tensor.select0 (t : Tensor α) (index : Int) : Except TorchError (Tensor α) :=
  match t.sizes with
  | [] => .error .indexError
  | n :: rest =>
    match wrap_index index n with
    | .ok idx => .ok ⟨rest, chunk t.data rest.prod idx⟩
    | .error e => .error e

/-- The call `item()`: the single element of a one-element tensor. -/
def Tensor.item (t : Tensor α) : Except TorchError α :=
  if t.numel = 1 then
    match t.data with
    | x :: _ => .ok x
    | [] => .error .runtimeError
  else .error .runtimeError

/-- The call `item<int>()`: `item()` followed by a checked conversion to a 32-bit integer. -/
def Tensor.item_int (t : Tensor Int) : Except TorchError Int :=
  match t.item with
  | .ok v => if -2147483648 ≤ v ∧ v < 2147483648 then .ok v else .error .runtimeError
  | .error e => .error e

/-- The call `t[index]` with a tensor: the index must be zero-dimensional; its value is then
used as an integer index. -/
def Tensor.index_tensor (t : Tensor α) (index : Tensor Int) : Except TorchError (Tensor α) :=
  if index.dim = 0 then
    match index.item with
    | .ok v => t.select0 v
    | .error e => .error e
  else .error .indexError

/-- The call `view(shape)` on a contiguous tensor with non-negative sizes. -/
def Tensor.view (t : Tensor α) (shape : List Nat) : Except TorchError (Tensor α) :=
  if shape.prod = t.numel then .ok ⟨shape, t.data⟩ else .error .runtimeError

/-- The call `index({Slice(), j, Slice()})`: three indices, the middle one an integer. -/
def Tensor.index_slice_int_slice (t : Tensor α) (j : Int) : Except TorchError (Tensor α) :=
  match t.sizes with
  | a :: b :: c :: rest =>
    match wrap_index j b with
    | .ok jj =>
      .ok ⟨a :: c :: rest,
        (List.range a).flatMap fun x =>
          chunk (chunk t.data (b * (c :: rest).prod) x) (c :: rest).prod jj⟩
    | .error e => .error e
  | _ => .error .indexError

/-- The call `transpose(0, 1)`. -/
def Tensor.transpose01 (t : Tensor α) : Except TorchError (Tensor α) :=
  match t.sizes with
  | a :: b :: rest =>
    .ok ⟨b :: a :: rest,
      (List.range b).flatMap fun y =>
        (List.range a).flatMap fun x => chunk (chunk t.data (b * rest.prod) x) rest.prod y⟩
  | _ => .error .indexError

/-- The call `torch::matmul(a, b)` for two matrices.  In `ref_compute_score` the left operand
is always a matrix; a right operand of higher rank would give a batched product of rank at
least three, whose copy into the rank-two destination throws, so every other rank
combination is mapped to the failure directly. -/
def matmul [Zero α] [Add α] [Mul α] (a b : Tensor α) : Except TorchError (Tensor α) :=
  match a.sizes, b.sizes with
  | [n, m], [m', p] =>
    if m = m' then
      .ok ⟨[n, p],
        (List.range n).flatMap fun r =>
          (List.range p).map fun c =>
            ((List.range m).map fun d =>
              a.data.getD (r * m + d) 0 * b.data.getD (d * p + c) 0).sum⟩
    else .error .runtimeError
  | _, _ => .error .runtimeError

/-- The call `torch::zeros(sizes)`. -/
def zeros [Zero α] (sizes : List Nat) : Tensor α := ⟨sizes, List.replicate sizes.prod 0⟩

/-- The call `dst.copy_(src)` behind an assignment to a view.  Only equal sizes occur in
`ref_compute_score` (the product and its destination are both
`query_group_size × block_size`); a size mismatch is reported as a failure. -/
def Tensor.copy_ (dst src : Tensor α) : Except TorchError (Tensor α) :=
  if src.sizes = dst.sizes then .ok ⟨dst.sizes, src.data⟩ else .error .runtimeError

/-- Write the sub-tensor `sub` back at position `idx` of the first dimension. -/
def Tensor.put0 (t : Tensor α) (idx : Nat) (sub : Tensor α) : Tensor α :=
  match t.sizes with
  | [] => t
  | _ :: rest =>
    ⟨t.sizes, t.data.take (idx * rest.prod) ++ sub.data ++ t.data.drop ((idx + 1) * rest.prod)⟩

/-- The statement `scores[i][j][k] = src`. -/
def Tensor.assign3 (scores : Tensor α) (i j k : Nat) (src : Tensor α) :
    Except TorchError (Tensor α) :=
  match scores.select0 i with
  | .error e => .error e
  | .ok s_i =>
    match s_i.select0 j with
    | .error e => .error e
    | .ok s_ij =>
      match s_ij.select0 k with
      | .error e => .error e
      | .ok s_ijk =>
        match s_ijk.copy_ src with
        | .error e => .error e
        | .ok written => .ok (scores.put0 i (s_i.put0 j (s_ij.put0 k written)))

/-- Element access `t[i₀][i₁]…` down to a zero-dimensional tensor. -/
def Tensor.get? (t : Tensor α) : List Nat → Option α
  | [] => if t.sizes = [] then t.data.head? else none
  | i :: is =>
    match t.select0 i with
    | .ok s => Tensor.get? s is
    | .error _ => none

/-- Counting loop `for (int i = 0; i < n; ++i) state = body(state, i)`; an exception in the
body leaves the loop. -/
def forRange {σ : Type} (body : σ → Nat → Except TorchError σ) :
    Nat → σ → Except TorchError σ
  | 0, s => .ok s
  | n + 1, s =>
    match forRange body n s with
    | .ok s' => body s' n
    | .error e => .error e

/-- Signed 64-bit division `a / b`, truncating toward zero. -/
def idiv (a b : Int) : Except TorchError Int :=
  if b = 0 then .error .divideByZero else .ok (Int.tdiv a b)

/-- Conversion of a signed 64-bit value to `uint32_t`. -/
def to_uint32 (x : Int) : Nat := (x % 4294967296).toNat

/-! ## The program -/

/-- The enumeration `XetlaType`. -/
inductive XetlaType where
  | fp16
  | bf16
  deriving DecidableEq

/-- Element types of the tensor library (the enumeration `c10::ScalarType`, which the
program takes from the library headers). -/
inductive ScalarType where
  | Byte | Char | Short | Int | Long | Half | Float | Double
  | ComplexHalf | ComplexFloat | ComplexDouble | Bool
  | QInt8 | QUInt8 | QInt32 | BFloat16 | QUInt4x2 | QUInt2x4
  | Bits1x8 | Bits2x4 | Bits4x2 | Bits8 | Bits16
  | Float8_e5m2 | Float8_e4m3fn | Float8_e5m2fnuz | Float8_e4m3fnuz
  | UInt16 | UInt32 | UInt64 | Undefined
  deriving DecidableEq

/-- The function `aten_to_Xetla_dtype`; the argument is `input.scalar_type()`, the only
property of the tensor that the function reads. -/
def aten_to_Xetla_dtype (scalar_type : ScalarType) : Except TorchError XetlaType :=
  if scalar_type = ScalarType.Half then .ok XetlaType.fp16
  else if scalar_type = ScalarType.BFloat16 then .ok XetlaType.bf16
  else .error .internalAssert

/-- Body of the innermost loop of `ref_compute_score` (lines 130-133). -/
def score_block [Zero α] [Add α] [Mul α] (key_cache : Tensor α) (start_block : Tensor Int)
    (query_slice : Tensor α) (i j : Nat) (scores : Tensor α) (k : Nat) :
    Except TorchError (Tensor α) := do
  let curr_key_block ← key_cache.index_tensor (← start_block.select0 k)
  let key_slice ← curr_key_block.index_slice_int_slice j
  let product ← matmul query_slice (← key_slice.transpose01)
  scores.assign3 i j k product

/-- Body of the loop over kv-heads of `ref_compute_score` (lines 128-134). -/
def score_head [Zero α] [Add α] [Mul α] (key_cache tem_query : Tensor α)
    (start_block : Tensor Int) (useful_blocks i : Nat) (scores : Tensor α) (j : Nat) :
    Except TorchError (Tensor α) := do
  let query_slice ← (← tem_query.select0 i).select0 j
  forRange (score_block key_cache start_block query_slice i j) useful_blocks scores

/-- Body of the loop over sequences of `ref_compute_score` (lines 126-135). -/
def score_seq [Zero α] [Add α] [Mul α] (key_cache tem_query : Tensor α)
    (block_tables : Tensor Int) (num_kv_heads useful_blocks : Nat) (scores : Tensor α)
    (i : Nat) : Except TorchError (Tensor α) := do
  let start_block ← block_tables.select0 i
  forRange (score_head key_cache tem_query start_block useful_blocks i) num_kv_heads scores

/-- The function `ref_compute_score`. -/
def ref_compute_score [Zero α] [Add α] [Mul α] (query key_cache : Tensor α)
    (block_tables context_lens : Tensor Int) : Except TorchError (Tensor α) := do
  let num_seqs ← query.size 0
  let num_heads ← query.size 1
  let head_size ← query.size 2
  let _num_blocks ← key_cache.size 0
  let block_size ← key_cache.size 1
  let num_kv_heads ← key_cache.size 2
  let seq_len ← (← context_lens.select0 0).item_int
  let query_group_size := (← idiv num_heads num_kv_heads).toNat
  let tem_query ← query.view [num_seqs, num_kv_heads, query_group_size, head_size]
  let useful_blocks := to_uint32 (← idiv seq_len block_size)
  let scores : Tensor α :=
    zeros [num_seqs, num_kv_heads, useful_blocks, query_group_size, block_size]
  forRange (score_seq key_cache tem_query block_tables num_kv_heads useful_blocks)
    num_seqs scores


/-! ## Vocabulary of the statements -/

/-- Row-major offset of a full index into a tensor of the given sizes, when in bounds. -/
def flat_index : List Nat → List Nat → Option Nat
  | [], [] => some 0
  | n :: rest, i :: is =>
    if i < n then (flat_index rest is).map (fun o => i * rest.prod + o) else none
  | _, _ => none

/-- Element at a full index, reading `0` where the index is out of bounds. -/
def Tensor.elem [Zero α] (t : Tensor α) (idx : List Nat) : α := (t.get? idx).getD 0

/-- The specified score: the dot product of `Query[i][j*G + g][:]` with
`KeyCache[BlockTable[i][k]][p][j][:]`, a sum over the `D` positions of a head. -/
def spec_score [Semiring α] (query key_cache : Tensor α) (block_tables : Tensor Int)
    (G D i j k g p : Nat) : α :=
  ∑ d ∈ Finset.range D,
    query.elem [i, j * G + g, d] * key_cache.elem [(block_tables.elem [i, k]).toNat, p, j, d]

/-- The blocks selected by `done` hold the specified scores. -/
def ScoresInv [Semiring α] (query key_cache : Tensor α) (block_tables : Tensor Int)
    (S KV UB G B D : Nat) (done : Nat → Nat → Nat → Prop) (t : Tensor α) : Prop :=
  t.sizes = [S, KV, UB, G, B] ∧ t.WF ∧
    ∀ i j k g p, done i j k → i < S → j < KV → k < UB → g < G → p < B →
      t.get? [i, j, k, g, p] = some (spec_score query key_cache block_tables G D i j k g p)

/-- The inputs have the shapes of the data model: query `[S, H, D]`, key cache
`[NB, B, KV, D]`, block table `[S, M]`, context lengths `[S]` holding 32-bit integers. -/
structure StatedShapes (query key_cache : Tensor α) (block_tables context_lens : Tensor Int)
    (S H D NB B KV M : Nat) : Prop where
  query_sizes : query.sizes = [S, H, D]
  query_wf : query.WF
  key_cache_sizes : key_cache.sizes = [NB, B, KV, D]
  key_cache_wf : key_cache.WF
  block_tables_sizes : block_tables.sizes = [S, M]
  block_tables_wf : block_tables.WF
  context_lens_sizes : context_lens.sizes = [S]
  context_lens_wf : context_lens.WF
  context_lens_int32 : ∀ x ∈ context_lens.data, -2147483648 ≤ x ∧ x < 2147483648

/-! ## Concrete inputs -/

/-- Scenario 1 of the specification: one sequence, two query heads sharing one kv-head. -/
def scenario1_query : Tensor Int := ⟨[1, 2, 4], [1, 2, 3, 4, 1, 2, 3, 4]⟩

/-- Key cache of scenario 1: two blocks of two tokens. -/
def scenario1_key_cache : Tensor Int :=
  ⟨[2, 2, 1, 4], [1, 0, 0, 0, 0, 1, 0, 0, 0, 0, 1, 0, 1, 1, 1, 1]⟩

/-- Block table of scenario 1. -/
def scenario1_block_tables : Tensor Int := ⟨[1, 2], [0, 1]⟩

/-- Context lengths of scenario 1. -/
def scenario1_context_lens : Tensor Int := ⟨[1], [4]⟩

/-- Scenario 2: a context length of 5 with blocks of 2 tokens and room for 3 blocks. -/
def scenario2_block_tables : Tensor Int := ⟨[1, 3], [1, 0, 1]⟩

/-- Context lengths of scenario 2. -/
def scenario2_context_lens : Tensor Int := ⟨[1], [5]⟩

/-- Two sequences of two query heads and two kv-heads, head size 2. -/
def pair_query : Tensor Int := ⟨[2, 2, 2], [1, 2, 3, 4, 5, 6, 7, 8]⟩

/-- Key cache of two blocks of two tokens for two kv-heads. -/
def pair_key_cache : Tensor Int :=
  ⟨[2, 2, 2, 2], [1, 0, 0, 1, 1, 1, 2, 2, 3, 0, 0, 3, 1, 2, 2, 1]⟩

/-- Block table in which the two sequences list the blocks in opposite orders. -/
def pair_block_tables : Tensor Int := ⟨[2, 2], [0, 1, 1, 0]⟩

/-- Block table with the second row equal to the first. -/
def pair_block_tables_same : Tensor Int := ⟨[2, 2], [0, 1, 0, 1]⟩

/-- Block table whose second row holds only stale entries. -/
def pair_block_tables_stale : Tensor Int := ⟨[2, 2], [0, 1, 7, 7]⟩

/-- Context lengths: the second sequence is longer than the first. -/
def pair_context_lens_short_first : Tensor Int := ⟨[2], [2, 4]⟩

/-- Context lengths: the second sequence is empty. -/
def pair_context_lens_empty_second : Tensor Int := ⟨[2], [4, 0]⟩

/-- The query `pair_query` with the vectors of the second sequence replaced. -/
def pair_query_other : Tensor Int := ⟨[2, 2, 2], [1, 2, 3, 4, 9, 9, 9, 9]⟩

/-- The constant `num_seqs`. -/
def num_seqs : Nat := 1

/-- The constant `num_heads`. -/
def num_heads : Nat := 16

/-- The constant `head_size`. -/
def head_size : Nat := 128

/-- The constant `max_num_partitions`. -/
def max_num_partitions : Nat := 1

/-- The constant `num_blocks`. -/
def num_blocks : Nat := 3146

/-- The constant `block_size`. -/
def block_size : Nat := 64

/-- The constant `num_kv_heads`. -/
def num_kv_heads : Nat := 2

/-- The constant `max_blocks_per_seq`. -/
def max_blocks_per_seq : Nat := 800

/-- The constant `partition_size`. -/
def partition_size : Nat := 512

/-- The call `torch::ones(sizes)`. -/
def ones [One α] (sizes : List Nat) : Tensor α := ⟨sizes, List.replicate sizes.prod 1⟩

/-- The call `fill_(v)`. -/
def Tensor.fill_ (t : Tensor α) (v : α) : Tensor α := ⟨t.sizes, List.replicate t.numel v⟩

/-- The call `torch::arange(0, n)`. -/
def arange (n : Nat) : Tensor Int := ⟨[n], (List.range n).map Int.ofNat⟩

/-- The function `init_query`: head `i` of sequence 0 is filled with `i + 1`, for every
`i < num_heads`. -/
def init_query (query : Tensor Int) : Except TorchError (Tensor Int) :=
  forRange (fun query i => do
    let q0 ← query.select0 0
    let q0i ← q0.select0 i
    pure (query.put0 0 (q0.put0 i (q0i.fill_ ((i : Int) + 1))))) num_heads query

/-- The value `ref_scores` of `main`: the tensors are created (lines 157-174), initialised
(lines 177-180) and passed to `ref_compute_score` (line 234). -/
def main_ref_scores : Except TorchError (Tensor Int) := do
  let query : Tensor Int := ones [num_seqs, num_heads, head_size]
  let key_cache : Tensor Int := ones [num_blocks, block_size, num_kv_heads, head_size]
  let block_tables : Tensor Int := ones [num_seqs, max_blocks_per_seq]
  let context_lens : Tensor Int := ones [num_seqs]
  let context_lens := context_lens.fill_ ((max_num_partitions * partition_size : Nat) : Int)
  let row ← block_tables.select0 0
  let block_tables := block_tables.put0 0 (← row.copy_ (arange max_blocks_per_seq))
  let query ← init_query query
  ref_compute_score query key_cache block_tables context_lens

/-! ## Blocks of a row-major element list -/

theorem offset_lt {g G d D : Nat} (hg : g < G) (hd : d < D) : g * D + d < G * D := by
  have h1 : (g + 1) * D ≤ G * D := Nat.mul_le_mul_right D hg
  have h2 : (g + 1) * D = g * D + D := by ring
  omega

theorem succ_mul_le {g G D : Nat} (hg : g < G) : (g + 1) * D ≤ G * D :=
  Nat.mul_le_mul_right D hg

theorem chunk_length (l : List α) (m i : Nat) (h : (i + 1) * m ≤ l.length) :
    (chunk l m i).length = m := by
  have h2 : (i + 1) * m = i * m + m := by ring
  simp only [chunk, List.length_take, List.length_drop]
  omega

theorem chunk_getElem? (l : List α) (m i y : Nat) (hy : y < m) :
    (chunk l m i)[y]? = l[i * m + y]? := by
  simp [chunk, List.getElem?_take, hy]

theorem chunk_chunk (l : List α) (b m x j : Nat) (hj : j < b) :
    chunk (chunk l (b * m) x) m j = chunk l m (x * b + j) := by
  apply List.ext_getElem?
  intro y
  by_cases hy : y < m
  · rw [chunk_getElem? _ _ _ _ hy, chunk_getElem? _ _ _ _ hy,
      chunk_getElem? _ _ _ _ (offset_lt hj hy)]
    congr 1
    ring
  · have h1 : ∀ (l' : List α) i, (chunk l' m i)[y]? = none := by
      intro l' i
      simp only [chunk, List.getElem?_take]
      simp [hy]
    rw [h1, h1]

theorem length_flatMap_range (F : Nat → List α) (m : Nat) :
    ∀ n, (∀ x, x < n → (F x).length = m) → ((List.range n).flatMap F).length = n * m
  | 0, _ => by simp
  | n + 1, h => by
    rw [List.range_succ, List.flatMap_append, List.length_append,
      length_flatMap_range F m n (fun x hx => h x (Nat.lt_succ_of_lt hx))]
    simp [h n (Nat.lt_succ_self n)]
    ring

theorem flatMap_range_getElem? (F : Nat → List α) (m : Nat) :
    ∀ n, (∀ x, x < n → (F x).length = m) → ∀ x y, x < n → y < m →
      ((List.range n).flatMap F)[x * m + y]? = (F x)[y]?
  | 0, _, x, _, hx, _ => absurd hx (Nat.not_lt_zero x)
  | n + 1, h, x, y, hx, hy => by
    have hlen := length_flatMap_range F m n (fun x hx => h x (Nat.lt_succ_of_lt hx))
    rw [List.range_succ, List.flatMap_append]
    by_cases hxn : x < n
    · have hlt : x * m + y < ((List.range n).flatMap F).length := by
        rw [hlen]; exact offset_lt hxn hy
      rw [List.getElem?_append_left hlt]
      exact flatMap_range_getElem? F m n (fun x hx => h x (Nat.lt_succ_of_lt hx)) x y hxn hy
    · have hx' : x = n := by omega
      subst hx'
      have hge : ((List.range x).flatMap F).length ≤ x * m + y := by
        rw [hlen]; omega
      rw [List.getElem?_append_right hge, hlen]
      simp

theorem chunk_flatMap_range (F : Nat → List α) (m n : Nat)
    (h : ∀ x, x < n → (F x).length = m) (g : Nat) (hg : g < n) :
    chunk ((List.range n).flatMap F) m g = F g := by
  apply List.ext_getElem?
  intro y
  by_cases hy : y < m
  · rw [chunk_getElem? _ _ _ _ hy, flatMap_range_getElem? F m n h g y hg hy]
  · have h1 : (chunk ((List.range n).flatMap F) m g)[y]? = none := by
      simp only [chunk, List.getElem?_take]
      simp [hy]
    rw [h1]
    symm
    apply List.getElem?_eq_none
    rw [h g hg]; omega

theorem chunk_put_same (l s : List α) (m i : Nat) (h : (i + 1) * m ≤ l.length)
    (hs : s.length = m) :
    chunk (l.take (i * m) ++ s ++ l.drop ((i + 1) * m)) m i = s := by
  have h2 : (i + 1) * m = i * m + m := by ring
  have hl : (l.take (i * m)).length = i * m := by
    rw [List.length_take]; omega
  unfold chunk
  rw [List.append_assoc, List.drop_left' hl, List.take_left' hs]

theorem chunk_put_other (l s : List α) (m i i' : Nat) (h : (i + 1) * m ≤ l.length)
    (hs : s.length = m) (hne : i' ≠ i) :
    chunk (l.take (i * m) ++ s ++ l.drop ((i + 1) * m)) m i' = chunk l m i' := by
  have h2 : (i + 1) * m = i * m + m := by ring
  have hl : (l.take (i * m)).length = i * m := by
    rw [List.length_take]; omega
  apply List.ext_getElem?
  intro y
  by_cases hy : y < m
  · rw [chunk_getElem? _ _ _ _ hy, chunk_getElem? _ _ _ _ hy]
    rcases Nat.lt_or_gt_of_ne hne with hlt | hgt
    · have h3 : i' * m + y < i * m := by
        have := offset_lt hlt hy
        exact this
      rw [List.append_assoc, List.getElem?_append_left (by omega), List.getElem?_take]
      simp [h3]
    · have h3 : (i + 1) * m ≤ i' * m := Nat.mul_le_mul_right m hgt
      rw [List.getElem?_append_right (by simp [hs]; omega)]
      simp only [List.length_append, hl, hs, List.getElem?_drop]
      congr 1
      omega
  · have h1 : ∀ (l' : List α), (chunk l' m i')[y]? = none := by
      intro l'
      simp only [chunk, List.getElem?_take]
      simp [hy]
    rw [h1, h1]

theorem put_length (l s : List α) (m i : Nat) (h : (i + 1) * m ≤ l.length)
    (hs : s.length = m) :
    (l.take (i * m) ++ s ++ l.drop ((i + 1) * m)).length = l.length := by
  have h2 : (i + 1) * m = i * m + m := by ring
  simp only [List.length_append, List.length_take, List.length_drop]
  omega


/-! ## Indexing and writing well-formed tensors -/

theorem wrap_index_nat (i n : Nat) (h : i < n) : wrap_index (i : Int) n = .ok i := by
  unfold wrap_index
  have h1 : ¬ ((i : Int) < -(n : Int) ∨ (n : Int) ≤ (i : Int)) := by omega
  have h2 : ¬ ((i : Int) < 0) := by omega
  rw [if_neg h1, if_neg h2, Int.toNat_ofNat]

theorem wrap_index_nat_ge (i n : Nat) (h : n ≤ i) :
    wrap_index (i : Int) n = .error .indexError := by
  unfold wrap_index
  have h1 : ((i : Int) < -(n : Int) ∨ (n : Int) ≤ (i : Int)) := by omega
  rw [if_pos h1]

theorem select0_ok (t : Tensor α) (n : Nat) (rest : List Nat) (hs : t.sizes = n :: rest)
    (i : Nat) (hi : i < n) :
    t.select0 (i : Int) = .ok ⟨rest, chunk t.data rest.prod i⟩ := by
  unfold Tensor.select0
  rw [hs]
  simp only [wrap_index_nat i n hi]

theorem select0_wf (t : Tensor α) (n : Nat) (rest : List Nat) (hs : t.sizes = n :: rest)
    (hwf : t.WF) (i : Nat) (hi : i < n) :
    (⟨rest, chunk t.data rest.prod i⟩ : Tensor α).WF := by
  unfold Tensor.WF Tensor.numel at *
  rw [hs, List.prod_cons] at hwf
  simp only
  apply chunk_length
  rw [hwf]
  exact succ_mul_le hi

theorem put0_eq (t : Tensor α) (n : Nat) (rest : List Nat) (hs : t.sizes = n :: rest)
    (i : Nat) (sub : Tensor α) :
    t.put0 i sub = ⟨n :: rest,
      t.data.take (i * rest.prod) ++ sub.data ++ t.data.drop ((i + 1) * rest.prod)⟩ := by
  unfold Tensor.put0
  rw [hs]

theorem put0_sizes (t : Tensor α) (i : Nat) (sub : Tensor α) :
    (t.put0 i sub).sizes = t.sizes := by
  unfold Tensor.put0
  split <;> rfl

theorem put0_wf (t : Tensor α) (n : Nat) (rest : List Nat) (hs : t.sizes = n :: rest)
    (hwf : t.WF) (i : Nat) (hi : i < n) (sub : Tensor α) (hsub : sub.sizes = rest)
    (hsubwf : sub.WF) : (t.put0 i sub).WF := by
  rw [put0_eq t n rest hs]
  unfold Tensor.WF Tensor.numel at *
  rw [hs, List.prod_cons] at hwf
  rw [hsub] at hsubwf
  simp only
  rw [put_length _ _ _ _ (by rw [hwf]; exact succ_mul_le hi) hsubwf, hwf, List.prod_cons]

theorem select0_put0_same (t : Tensor α) (n : Nat) (rest : List Nat)
    (hs : t.sizes = n :: rest) (hwf : t.WF) (i : Nat) (hi : i < n) (sub : Tensor α)
    (hsub : sub.sizes = rest) (hsubwf : sub.WF) :
    (t.put0 i sub).select0 (i : Int) = .ok sub := by
  rw [select0_ok _ n rest (by rw [put0_sizes, hs]) i hi, put0_eq t n rest hs]
  unfold Tensor.WF Tensor.numel at *
  rw [hs, List.prod_cons] at hwf
  rw [hsub] at hsubwf
  simp only
  rw [chunk_put_same _ _ _ _ (by rw [hwf]; exact succ_mul_le hi) hsubwf]
  cases sub
  simp only at hsub
  rw [hsub]

theorem select0_put0_other (t : Tensor α) (n : Nat) (rest : List Nat)
    (hs : t.sizes = n :: rest) (hwf : t.WF) (i : Nat) (hi : i < n) (sub : Tensor α)
    (hsub : sub.sizes = rest) (hsubwf : sub.WF) (i' : Nat) (hi' : i' < n) (hne : i' ≠ i) :
    (t.put0 i sub).select0 (i' : Int) = t.select0 (i' : Int) := by
  rw [select0_ok _ n rest (by rw [put0_sizes, hs]) i' hi', select0_ok t n rest hs i' hi',
    put0_eq t n rest hs]
  unfold Tensor.WF Tensor.numel at *
  rw [hs, List.prod_cons] at hwf
  rw [hsub] at hsubwf
  simp only
  rw [chunk_put_other _ _ _ _ _ (by rw [hwf]; exact succ_mul_le hi) hsubwf hne]

theorem get?_cons_of_select0 (t s : Tensor α) (i : Nat) (is : List Nat)
    (h : t.select0 (i : Int) = .ok s) : t.get? (i :: is) = s.get? is := by
  simp only [Tensor.get?, h]

theorem copy__same_sizes (dst src : Tensor α) (h : src.sizes = dst.sizes) :
    dst.copy_ src = .ok src := by
  unfold Tensor.copy_
  rw [if_pos h, ← h]

/-- The result of `scores[i][j][k] = src` on a well-formed five-dimensional tensor. -/
theorem assign3_spec (t src : Tensor α) (S KV UB G B : Nat)
    (hs : t.sizes = [S, KV, UB, G, B]) (hwf : t.WF) (i j k : Nat) (hi : i < S) (hj : j < KV)
    (hk : k < UB) (hsrc : src.sizes = [G, B]) (hsrcwf : src.WF) :
    ∃ t', t.assign3 i j k src = .ok t' ∧ t'.sizes = [S, KV, UB, G, B] ∧ t'.WF ∧
      (∀ rest, t'.get? (i :: j :: k :: rest) = src.get? rest) ∧
      (∀ i' j' k' rest, i' < S → j' < KV → k' < UB → ¬ (i' = i ∧ j' = j ∧ k' = k) →
        t'.get? (i' :: j' :: k' :: rest) = t.get? (i' :: j' :: k' :: rest)) := by
  have h1 := select0_ok t S [KV, UB, G, B] hs i hi
  have w1 := select0_wf t S [KV, UB, G, B] hs hwf i hi
  generalize hs1 : (⟨[KV, UB, G, B], chunk t.data [KV, UB, G, B].prod i⟩ : Tensor α) = s1
    at h1 w1
  have z1 : s1.sizes = [KV, UB, G, B] := by rw [← hs1]
  have h2 := select0_ok s1 KV [UB, G, B] z1 j hj
  have w2 := select0_wf s1 KV [UB, G, B] z1 w1 j hj
  generalize hs2 : (⟨[UB, G, B], chunk s1.data [UB, G, B].prod j⟩ : Tensor α) = s2 at h2 w2
  have z2 : s2.sizes = [UB, G, B] := by rw [← hs2]
  have h3 := select0_ok s2 UB [G, B] z2 k hk
  have w3 := select0_wf s2 UB [G, B] z2 w2 k hk
  generalize hs3 : (⟨[G, B], chunk s2.data [G, B].prod k⟩ : Tensor α) = s3 at h3 w3
  have z3 : s3.sizes = [G, B] := by rw [← hs3]
  have hc : s3.copy_ src = .ok src := copy__same_sizes s3 src (by rw [hsrc, z3])
  have p3wf := put0_wf s2 UB [G, B] z2 w2 k hk src hsrc hsrcwf
  have p3s : (s2.put0 k src).sizes = [UB, G, B] := by rw [put0_sizes, z2]
  have p2wf := put0_wf s1 KV [UB, G, B] z1 w1 j hj _ p3s p3wf
  have p2s : (s1.put0 j (s2.put0 k src)).sizes = [KV, UB, G, B] := by rw [put0_sizes, z1]
  have p1wf := put0_wf t S [KV, UB, G, B] hs hwf i hi _ p2s p2wf
  refine ⟨t.put0 i (s1.put0 j (s2.put0 k src)), ?_, ?_, p1wf, ?_, ?_⟩
  · unfold Tensor.assign3
    simp only [h1, h2, h3, hc]
  · rw [put0_sizes, hs]
  · intro rest
    rw [get?_cons_of_select0 _ _ i _
        (select0_put0_same t S _ hs hwf i hi _ p2s p2wf),
      get?_cons_of_select0 _ _ j _
        (select0_put0_same s1 KV _ z1 w1 j hj _ p3s p3wf),
      get?_cons_of_select0 _ _ k _
        (select0_put0_same s2 UB _ z2 w2 k hk _ hsrc hsrcwf)]
  · intro i' j' k' rest hi' hj' hk' hne
    by_cases e1 : i' = i
    · subst e1
      rw [get?_cons_of_select0 _ _ i' _
          (select0_put0_same t S _ hs hwf i' hi _ p2s p2wf),
        get?_cons_of_select0 _ _ i' _ h1]
      by_cases e2 : j' = j
      · subst e2
        rw [get?_cons_of_select0 _ _ j' _
            (select0_put0_same s1 KV _ z1 w1 j' hj _ p3s p3wf),
          get?_cons_of_select0 _ _ j' _ h2]
        have e3 : k' ≠ k := fun e => hne ⟨rfl, rfl, e⟩
        simp only [Tensor.get?, select0_put0_other s2 UB _ z2 w2 k hk _ hsrc hsrcwf k' hk' e3]
      · simp only [Tensor.get?, select0_put0_other s1 KV _ z1 w1 j hj _ p3s p3wf j' hj' e2]
    · simp only [Tensor.get?, select0_put0_other t S _ hs hwf i hi _ p2s p2wf i' hi' e1]

/-! ## Element access as a row-major offset -/

theorem flat_index_lt : ∀ (sizes idx : List Nat) (o : Nat),
    flat_index sizes idx = some o → o < sizes.prod
  | [], [], o, h => by
    simp only [flat_index, Option.some.injEq] at h
    subst h
    simp
  | [], _ :: _, o, h => by simp [flat_index] at h
  | _ :: _, [], o, h => by simp [flat_index] at h
  | n :: rest, i :: is, o, h => by
    simp only [flat_index] at h
    by_cases hi : i < n
    · rw [if_pos hi] at h
      cases hf : flat_index rest is with
      | none => rw [hf] at h; simp at h
      | some o' =>
        rw [hf] at h
        simp only [Option.map_some', Option.some.injEq] at h
        subst h
        rw [List.prod_cons]
        exact offset_lt hi (flat_index_lt rest is o' hf)
    · rw [if_neg hi] at h
      cases h

theorem get?_eq_flat : ∀ (idx : List Nat) (t : Tensor α), t.WF →
    t.get? idx = (flat_index t.sizes idx).bind (fun o => t.data[o]?)
  | [], t, _ => by
    unfold Tensor.get?
    cases hs : t.sizes with
    | nil => simp [flat_index, List.head?_eq_getElem?]
    | cons n rest => simp [flat_index]
  | i :: is, t, hwf => by
    cases hs : t.sizes with
    | nil => simp [Tensor.get?, Tensor.select0, hs, flat_index]
    | cons n rest =>
      by_cases hi : i < n
      · rw [get?_cons_of_select0 t _ i is (select0_ok t n rest hs i hi),
          get?_eq_flat is _ (select0_wf t n rest hs hwf i hi)]
        simp only [flat_index, if_pos hi]
        cases hf : flat_index rest is with
        | none => simp
        | some o =>
          simp only [Option.map_some', Option.some_bind]
          exact chunk_getElem? _ _ _ _ (flat_index_lt rest is o hf)
      · have he : t.select0 (i : Int) = .error .indexError := by
          unfold Tensor.select0
          rw [hs]
          simp only [wrap_index_nat_ge i n (Nat.le_of_not_lt hi)]
        simp [Tensor.get?, he, flat_index, hi]

theorem get?_rank1 (t : Tensor α) (n : Nat) (hs : t.sizes = [n]) (hwf : t.WF) (i : Nat)
    (hi : i < n) : t.get? [i] = t.data[i]? := by
  rw [get?_eq_flat _ t hwf, hs]
  simp [flat_index, hi]

theorem get?_rank2 (t : Tensor α) (n m : Nat) (hs : t.sizes = [n, m]) (hwf : t.WF)
    (r c : Nat) (hr : r < n) (hc : c < m) : t.get? [r, c] = t.data[r * m + c]? := by
  rw [get?_eq_flat _ t hwf, hs]
  simp [flat_index, hr, hc]

theorem get?_rank3 (t : Tensor α) (a b c : Nat) (hs : t.sizes = [a, b, c]) (hwf : t.WF)
    (i j k : Nat) (hi : i < a) (hj : j < b) (hk : k < c) :
    t.get? [i, j, k] = t.data[(i * b + j) * c + k]? := by
  rw [get?_eq_flat _ t hwf, hs]
  simp only [flat_index, hi, hj, hk, if_true, List.prod_cons, List.prod_nil, Option.map_some',
    Option.some_bind]
  congr 1
  ring

theorem get?_rank4 (t : Tensor α) (a b c d : Nat) (hs : t.sizes = [a, b, c, d]) (hwf : t.WF)
    (i j k l : Nat) (hi : i < a) (hj : j < b) (hk : k < c) (hl : l < d) :
    t.get? [i, j, k, l] = t.data[((i * b + j) * c + k) * d + l]? := by
  rw [get?_eq_flat _ t hwf, hs]
  simp only [flat_index, hi, hj, hk, hl, if_true, List.prod_cons, List.prod_nil,
    Option.map_some', Option.some_bind]
  congr 1
  ring

theorem getElem?_eq_some_getD [Zero α] (l : List α) (o : Nat) (h : o < l.length) :
    l[o]? = some (l.getD o 0) := by
  rw [List.getD_eq_getElem?_getD, List.getElem?_eq_getElem h]
  rfl

/-! ## The tensor operations on well-formed operands -/

theorem list_sum_range {β : Type} [AddCommMonoid β] (f : Nat → β) :
    ∀ n, ((List.range n).map f).sum = ∑ d ∈ Finset.range n, f d
  | 0 => by simp
  | n + 1 => by
    rw [List.range_succ, List.map_append, List.sum_append, list_sum_range f n,
      Finset.sum_range_succ]
    simp

theorem getD_of_getElem?_eq [Zero α] (l l' : List α) (o o' : Nat) (h : l[o]? = l'[o']?) :
    l.getD o 0 = l'.getD o' 0 := by
  rw [List.getD_eq_getElem?_getD, List.getD_eq_getElem?_getD, h]

/-- Middle-index selection on a three-dimensional tensor. -/
theorem index_slice_int_slice_spec (t : Tensor α) (a b c : Nat) (hs : t.sizes = [a, b, c])
    (hwf : t.WF) (j : Nat) (hj : j < b) :
    ∃ r, t.index_slice_int_slice (j : Int) = .ok r ∧ r.sizes = [a, c] ∧ r.WF ∧
      ∀ x y, x < a → y < c → r.data[x * c + y]? = t.data[(x * b + j) * c + y]? := by
  have hlen : t.data.length = a * (b * c) := by
    unfold Tensor.WF Tensor.numel at hwf
    rw [hwf, hs]; simp
  have hF : ∀ x, x < a → (chunk (chunk t.data (b * [c].prod) x) [c].prod j).length = c := by
    intro x hx
    rw [chunk_chunk _ _ _ _ _ hj]
    simp only [List.prod_cons, List.prod_nil, Nat.mul_one]
    apply chunk_length
    rw [hlen]
    have h1 : x * b + j < a * b := offset_lt hx hj
    have h2 := succ_mul_le (D := c) h1
    rw [Nat.mul_assoc] at h2
    exact h2
  refine ⟨⟨[a, c], (List.range a).flatMap fun x =>
    chunk (chunk t.data (b * [c].prod) x) [c].prod j⟩, ?_, rfl, ?_, ?_⟩
  · unfold Tensor.index_slice_int_slice
    rw [hs]
    simp only [wrap_index_nat j b hj]
  · unfold Tensor.WF Tensor.numel
    simp only
    rw [length_flatMap_range _ c a hF]
    simp
  · intro x y hx hy
    simp only
    rw [flatMap_range_getElem? _ c a hF x y hx hy, chunk_chunk _ _ _ _ _ hj]
    simp only [List.prod_cons, List.prod_nil, Nat.mul_one]
    exact chunk_getElem? _ _ _ _ hy

/-- Transposition of a matrix. -/
theorem transpose01_spec (t : Tensor α) (a b : Nat) (hs : t.sizes = [a, b]) (hwf : t.WF) :
    ∃ r, t.transpose01 = .ok r ∧ r.sizes = [b, a] ∧ r.WF ∧
      ∀ y x, y < b → x < a → r.data[y * a + x]? = t.data[x * b + y]? := by
  have hlen : t.data.length = a * b := by
    unfold Tensor.WF Tensor.numel at hwf
    rw [hwf, hs]; simp
  have hH : ∀ y, y < b → ∀ x, x < a →
      (chunk (chunk t.data (b * ([] : List Nat).prod) x) ([] : List Nat).prod y).length = 1 := by
    intro y hy x hx
    rw [chunk_chunk _ _ _ _ _ hy]
    simp only [List.prod_nil]
    apply chunk_length
    rw [hlen]
    have h1 : x * b + y < a * b := offset_lt hx hy
    omega
  have hF : ∀ y, y < b → ((List.range a).flatMap fun x =>
      chunk (chunk t.data (b * ([] : List Nat).prod) x) ([] : List Nat).prod y).length = a := by
    intro y hy
    rw [length_flatMap_range _ 1 a (hH y hy)]
    simp
  refine ⟨⟨[b, a], (List.range b).flatMap fun y => (List.range a).flatMap fun x =>
    chunk (chunk t.data (b * ([] : List Nat).prod) x) ([] : List Nat).prod y⟩, ?_, rfl, ?_, ?_⟩
  · unfold Tensor.transpose01
    rw [hs]
  · unfold Tensor.WF Tensor.numel
    simp only
    rw [length_flatMap_range _ a b hF]
    simp
  · intro y x hy hx
    simp only
    rw [flatMap_range_getElem? _ a b hF y x hy hx]
    have h0 := flatMap_range_getElem? _ 1 a (hH y hy) x 0 hx Nat.one_pos
    simp only [Nat.mul_one, Nat.add_zero] at h0
    rw [h0, chunk_chunk _ _ _ _ _ hy]
    simp only [List.prod_nil]
    have h1 := chunk_getElem? t.data 1 (x * b + y) 0 Nat.one_pos
    simp only [Nat.mul_one, Nat.add_zero] at h1
    exact h1

/-- Product of two matrices, entry by entry. -/
theorem matmul_spec [Semiring α] (a b : Tensor α) (n m p : Nat) (ha : a.sizes = [n, m])
    (hb : b.sizes = [m, p]) :
    ∃ r, matmul a b = .ok r ∧ r.sizes = [n, p] ∧ r.WF ∧
      ∀ i c, i < n → c < p → r.get? [i, c] =
        some (∑ d ∈ Finset.range m, a.data.getD (i * m + d) 0 * b.data.getD (d * p + c) 0) := by
  have hF : ∀ i, i < n → ((List.range p).map fun c =>
      ((List.range m).map fun d =>
        a.data.getD (i * m + d) 0 * b.data.getD (d * p + c) 0).sum).length = p := by
    intro i _
    simp
  have hwf : (⟨[n, p], (List.range n).flatMap fun i => (List.range p).map fun c =>
      ((List.range m).map fun d =>
        a.data.getD (i * m + d) 0 * b.data.getD (d * p + c) 0).sum⟩ : Tensor α).WF := by
    unfold Tensor.WF Tensor.numel
    simp only
    rw [length_flatMap_range _ p n hF]
    simp
  refine ⟨_, ?_, rfl, hwf, ?_⟩
  · unfold matmul
    rw [ha, hb]
    simp only [if_true]
  · intro i c hi hc
    rw [get?_rank2 _ n p rfl hwf i c hi hc]
    simp only
    rw [flatMap_range_getElem? _ p n hF i c hi hc, List.getElem?_map,
      List.getElem?_range hc]
    simp only [Option.map_some']
    rw [list_sum_range]

/-! ## One block of scores -/

theorem chunk2_getElem? (l : List α) (P Q i j o : Nat) (ho : o < Q) (hj : (j + 1) * Q ≤ P) :
    (chunk (chunk l P i) Q j)[o]? = l[i * P + (j * Q + o)]? := by
  have h2 : (j + 1) * Q = j * Q + Q := by ring
  rw [chunk_getElem? _ _ _ _ ho, chunk_getElem? _ _ _ _ (by omega)]

theorem elem_rank3 [Zero α] (t : Tensor α) (a b c : Nat) (hs : t.sizes = [a, b, c])
    (hwf : t.WF) (i j k : Nat) (hi : i < a) (hj : j < b) (hk : k < c) :
    t.elem [i, j, k] = t.data.getD ((i * b + j) * c + k) 0 := by
  unfold Tensor.elem
  rw [get?_rank3 t a b c hs hwf i j k hi hj hk, List.getD_eq_getElem?_getD]

theorem elem_rank4 [Zero α] (t : Tensor α) (a b c d : Nat) (hs : t.sizes = [a, b, c, d])
    (hwf : t.WF) (i j k l : Nat) (hi : i < a) (hj : j < b) (hk : k < c) (hl : l < d) :
    t.elem [i, j, k, l] = t.data.getD (((i * b + j) * c + k) * d + l) 0 := by
  unfold Tensor.elem
  rw [get?_rank4 t a b c d hs hwf i j k l hi hj hk hl, List.getD_eq_getElem?_getD]

theorem get?_some_lt_rank2 (t : Tensor α) (n m : Nat) (hs : t.sizes = [n, m]) (hwf : t.WF)
    (r c : Nat) (x : α) (h : t.get? [r, c] = some x) : r < n ∧ c < m := by
  rw [get?_eq_flat _ t hwf, hs] at h
  simp only [flat_index] at h
  by_cases hr : r < n
  · by_cases hc : c < m
    · exact ⟨hr, hc⟩
    · simp [hr, hc] at h
  · simp [hr] at h

/-- The entry `BlockTable[i][k]`, read the way the loop body reads it. -/
theorem block_entry_item (bt : Tensor Int) (S M : Nat) (hs : bt.sizes = [S, M]) (i k : Nat)
    (hi : i < S) (hk : k < M) (b : Int) (h : bt.get? [i, k] = some b) :
    ∃ e, (⟨[M], chunk bt.data [M].prod i⟩ : Tensor Int).select0 (k : Int) = .ok e ∧
      e.dim = 0 ∧ e.item = .ok b := by
  have h1 := select0_ok bt S [M] hs i hi
  have h2 := select0_ok (⟨[M], chunk bt.data [M].prod i⟩ : Tensor Int) M [] rfl k hk
  refine ⟨_, h2, rfl, ?_⟩
  rw [get?_cons_of_select0 _ _ _ _ h1, get?_cons_of_select0 _ _ _ _ h2] at h
  simp only [Tensor.get?, if_true] at h
  have key : ∀ l : List Int, l.head? = some b →
      (⟨[], l⟩ : Tensor Int).item = .ok b := by
    intro l hl
    unfold Tensor.item Tensor.numel
    simp only [List.prod_nil, if_true]
    cases l with
    | nil => simp at hl
    | cons x xs =>
      simp only [List.head?_cons, Option.some.injEq] at hl
      rw [hl]
  exact key _ h

/-- The matrix product computed for one block has the specified entries. -/
theorem score_product_spec [Semiring α] (q kc : Tensor α) (bt : Tensor Int)
    (S H D NB B KV M G : Nat) (hq : q.sizes = [S, H, D]) (hqwf : q.WF)
    (hkc : kc.sizes = [NB, B, KV, D]) (hkcwf : kc.WF) (hbt : bt.sizes = [S, M])
    (hbtwf : bt.WF) (hH : H = KV * G) (i j k b : Nat) (hi : i < S) (hj : j < KV)
    (hb : b < NB) (hik : bt.get? [i, k] = some (b : Int)) (t : Tensor α) :
    ∃ m, score_block kc (⟨[M], chunk bt.data [M].prod i⟩ : Tensor Int)
        (⟨[G, D], chunk (chunk q.data [KV, G, D].prod i) [G, D].prod j⟩ : Tensor α)
        i j t k = t.assign3 i j k m ∧
      m.sizes = [G, B] ∧ m.WF ∧
      ∀ g p, g < G → p < B →
        m.get? [g, p] = some (spec_score q kc bt G D i j k g p) := by
  have hkM := (get?_some_lt_rank2 bt S M hbt hbtwf i k _ hik).2
  obtain ⟨e, he1, he2, he3⟩ := block_entry_item bt S M hbt i k hi hkM _ hik
  have hc1 := select0_ok kc NB [B, KV, D] hkc b hb
  have hc1wf := select0_wf kc NB [B, KV, D] hkc hkcwf b hb
  obtain ⟨ks, hks1, hks2, hks3, hks4⟩ :=
    index_slice_int_slice_spec _ B KV D rfl hc1wf j hj
  obtain ⟨kt, hkt1, hkt2, hkt3, hkt4⟩ := transpose01_spec ks B D hks2 hks3
  obtain ⟨m, hm1, hm2, hm3, hm4⟩ :=
    matmul_spec (⟨[G, D], chunk (chunk q.data [KV, G, D].prod i) [G, D].prod j⟩ : Tensor α)
      kt G D B rfl hkt2
  refine ⟨m, ?_, hm2, hm3, ?_⟩
  · unfold score_block Tensor.index_tensor
    simp only [he1, he2, he3, hc1, hks1, hkt1, hm1, bind, Except.bind, if_true]
  · intro g p hg hp
    rw [hm4 g p hg hp]
    unfold spec_score
    have hbe : (bt.elem [i, k]).toNat = b := by
      unfold Tensor.elem
      rw [hik]
      simp
    rw [hbe]
    congr 1
    apply Finset.sum_congr rfl
    intro d hd
    have hd' : d < D := Finset.mem_range.mp hd
    have hqlen : q.data.length = S * (H * D) := by
      unfold Tensor.WF Tensor.numel at hqwf
      rw [hqwf, hq]; simp
    have hjg : j * G + g < H := by rw [hH]; exact offset_lt hj hg
    rw [elem_rank3 q S H D hq hqwf i (j * G + g) d hi hjg hd',
      elem_rank4 kc NB B KV D hkc hkcwf b p j d hb hp hj hd']
    congr 1
    · apply getD_of_getElem?_eq
      simp only [List.prod_cons, List.prod_nil, Nat.mul_one]
      rw [chunk2_getElem? _ _ _ _ _ _ (offset_lt hg hd') (by
        have := succ_mul_le (D := G * D) hj
        exact this)]
      congr 1
      rw [hH]
      ring
    · apply getD_of_getElem?_eq
      rw [hkt4 d p hd' hp, hks4 p d hp hd']
      simp only [List.prod_cons, List.prod_nil, Nat.mul_one]
      rw [chunk_getElem? _ _ _ _ (by
        have h1 : p * KV + j < B * KV := offset_lt hp hj
        have h2 := offset_lt h1 hd'
        rw [Nat.mul_assoc] at h2
        exact h2)]
      congr 1
      ring

/-! ## The three loops -/

theorem forRange_inv {σ : Type} (body : σ → Nat → Except TorchError σ)
    (Inv : Nat → σ → Prop) :
    ∀ (n : Nat) (s0 : σ), Inv 0 s0 →
      (∀ m s, m < n → Inv m s → ∃ s', body s m = .ok s' ∧ Inv (m + 1) s') →
      ∃ s', forRange body n s0 = .ok s' ∧ Inv n s'
  | 0, s0, h0, _ => ⟨s0, rfl, h0⟩
  | n + 1, s0, h0, hstep => by
    obtain ⟨s1, h1, i1⟩ :=
      forRange_inv body Inv n s0 h0 (fun m s hm => hstep m s (Nat.lt_succ_of_lt hm))
    obtain ⟨s2, h2, i2⟩ := hstep n s1 (Nat.lt_succ_self n) i1
    refine ⟨s2, ?_, i2⟩
    simp only [forRange, h1, h2]

theorem ScoresInv_mono [Semiring α] (q kc : Tensor α) (bt : Tensor Int)
    (S KV UB G B D : Nat) (P P' : Nat → Nat → Nat → Prop) (t : Tensor α)
    (h : ∀ i j k, i < S → j < KV → k < UB → P' i j k → P i j k)
    (ht : ScoresInv q kc bt S KV UB G B D P t) : ScoresInv q kc bt S KV UB G B D P' t :=
  ⟨ht.1, ht.2.1, fun i j k g p hP hi hj hk hg hp =>
    ht.2.2 i j k g p (h i j k hi hj hk hP) hi hj hk hg hp⟩

/-- One pass of the loop over logical blocks fills the blocks of one (sequence, kv-head). -/
theorem score_head_spec [Semiring α] (q kc : Tensor α) (bt : Tensor Int)
    (S H D NB B KV M G UB : Nat) (hq : q.sizes = [S, H, D]) (hqwf : q.WF)
    (hkc : kc.sizes = [NB, B, KV, D]) (hkcwf : kc.WF) (hbt : bt.sizes = [S, M])
    (hbtwf : bt.WF) (hH : H = KV * G) (i j : Nat) (hi : i < S) (hj : j < KV)
    (hvalid : ∀ k, k < UB → ∃ b : Nat, b < NB ∧ bt.get? [i, k] = some (b : Int))
    (P : Nat → Nat → Nat → Prop) (t : Tensor α)
    (ht : ScoresInv q kc bt S KV UB G B D P t) :
    ∃ t', score_head kc (⟨[S, KV, G, D], q.data⟩ : Tensor α)
        (⟨[M], chunk bt.data [M].prod i⟩ : Tensor Int) UB i t j = .ok t' ∧
      ScoresInv q kc bt S KV UB G B D (fun i' j' k' => P i' j' k' ∨ (i' = i ∧ j' = j)) t' := by
  have h1 := select0_ok (⟨[S, KV, G, D], q.data⟩ : Tensor α) S [KV, G, D] rfl i hi
  have h2 := select0_ok (⟨[KV, G, D], chunk q.data [KV, G, D].prod i⟩ : Tensor α)
    KV [G, D] rfl j hj
  obtain ⟨t', hrun, hinv⟩ := forRange_inv
    (score_block kc (⟨[M], chunk bt.data [M].prod i⟩ : Tensor Int)
      (⟨[G, D], chunk (chunk q.data [KV, G, D].prod i) [G, D].prod j⟩ : Tensor α) i j)
    (fun n s => ScoresInv q kc bt S KV UB G B D
      (fun i' j' k' => P i' j' k' ∨ (i' = i ∧ j' = j ∧ k' < n)) s)
    UB t
    (ScoresInv_mono q kc bt S KV UB G B D _ _ t (by
      intro i' j' k' _ _ _ h
      rcases h with h | ⟨_, _, h⟩
      · exact h
      · exact absurd h (Nat.not_lt_zero _)) ht)
    (by
      intro k s hk hs
      obtain ⟨b, hb, hik⟩ := hvalid k hk
      obtain ⟨m, hm1, hm2, hm3, hm4⟩ := score_product_spec q kc bt S H D NB B KV M G hq hqwf
        hkc hkcwf hbt hbtwf hH i j k b hi hj hb hik s
      obtain ⟨s', hs1, hs2, hs3, hs4, hs5⟩ :=
        assign3_spec s m S KV UB G B hs.1 hs.2.1 i j k hi hj hk hm2 hm3
      refine ⟨s', by rw [hm1, hs1], hs2, hs3, ?_⟩
      intro i' j' k' g p hP hi' hj' hk' hg hp
      by_cases heq : i' = i ∧ j' = j ∧ k' = k
      · obtain ⟨e1, e2, e3⟩ := heq
        subst e1 e2 e3
        rw [hs4, hm4 g p hg hp]
      · rw [hs5 i' j' k' _ hi' hj' hk' heq]
        apply hs.2.2 i' j' k' g p _ hi' hj' hk' hg hp
        rcases hP with h | ⟨e1, e2, e3⟩
        · exact Or.inl h
        · refine Or.inr ⟨e1, e2, ?_⟩
          have : k' ≠ k := fun e => heq ⟨e1, e2, e⟩
          omega)
  refine ⟨t', ?_, ?_⟩
  · unfold score_head
    simp only [h1, h2, bind, Except.bind]
    exact hrun
  · apply ScoresInv_mono q kc bt S KV UB G B D _ _ t' _ hinv
    intro i' j' k' _ _ hk' h
    rcases h with h | ⟨e1, e2⟩
    · exact Or.inl h
    · exact Or.inr ⟨e1, e2, hk'⟩

/-- One pass of the loop over kv-heads fills the blocks of one sequence. -/
theorem score_seq_spec [Semiring α] (q kc : Tensor α) (bt : Tensor Int)
    (S H D NB B KV M G UB : Nat) (hq : q.sizes = [S, H, D]) (hqwf : q.WF)
    (hkc : kc.sizes = [NB, B, KV, D]) (hkcwf : kc.WF) (hbt : bt.sizes = [S, M])
    (hbtwf : bt.WF) (hH : H = KV * G) (i : Nat) (hi : i < S)
    (hvalid : ∀ k, k < UB → ∃ b : Nat, b < NB ∧ bt.get? [i, k] = some (b : Int))
    (P : Nat → Nat → Nat → Prop) (t : Tensor α)
    (ht : ScoresInv q kc bt S KV UB G B D P t) :
    ∃ t', score_seq kc (⟨[S, KV, G, D], q.data⟩ : Tensor α) bt KV UB t i = .ok t' ∧
      ScoresInv q kc bt S KV UB G B D (fun i' j' k' => P i' j' k' ∨ i' = i) t' := by
  have h1 := select0_ok bt S [M] hbt i hi
  obtain ⟨t', hrun, hinv⟩ := forRange_inv
    (score_head kc (⟨[S, KV, G, D], q.data⟩ : Tensor α)
      (⟨[M], chunk bt.data [M].prod i⟩ : Tensor Int) UB i)
    (fun n s => ScoresInv q kc bt S KV UB G B D
      (fun i' j' k' => P i' j' k' ∨ (i' = i ∧ j' < n)) s)
    KV t
    (ScoresInv_mono q kc bt S KV UB G B D _ _ t (by
      intro i' j' k' _ _ _ h
      rcases h with h | ⟨_, h⟩
      · exact h
      · exact absurd h (Nat.not_lt_zero _)) ht)
    (by
      intro j s hj hs
      obtain ⟨s', hs1, hs2⟩ := score_head_spec q kc bt S H D NB B KV M G UB hq hqwf hkc hkcwf
        hbt hbtwf hH i j hi hj hvalid _ s hs
      refine ⟨s', hs1, ?_⟩
      apply ScoresInv_mono q kc bt S KV UB G B D _ _ s' _ hs2
      intro i' j' k' _ _ _ h
      rcases h with h | ⟨e1, e2⟩
      · exact Or.inl (Or.inl h)
      · rcases Nat.lt_succ_iff_lt_or_eq.mp e2 with h3 | h3
        · exact Or.inl (Or.inr ⟨e1, h3⟩)
        · exact Or.inr ⟨e1, h3⟩)
  refine ⟨t', ?_, ?_⟩
  · unfold score_seq
    simp only [h1, bind, Except.bind]
    exact hrun
  · apply ScoresInv_mono q kc bt S KV UB G B D _ _ t' _ hinv
    intro i' j' k' _ hj' _ h
    rcases h with h | e1
    · exact Or.inl h
    · exact Or.inr ⟨e1, hj'⟩

theorem zeros_wf [Zero α] (sizes : List Nat) : (zeros sizes : Tensor α).WF := by
  unfold Tensor.WF Tensor.numel zeros
  simp

/-- The loop over sequences fills every block. -/
theorem score_loops_spec [Semiring α] (q kc : Tensor α) (bt : Tensor Int)
    (S H D NB B KV M G UB : Nat) (hq : q.sizes = [S, H, D]) (hqwf : q.WF)
    (hkc : kc.sizes = [NB, B, KV, D]) (hkcwf : kc.WF) (hbt : bt.sizes = [S, M])
    (hbtwf : bt.WF) (hH : H = KV * G)
    (hvalid : ∀ i k, i < S → k < UB → ∃ b : Nat, b < NB ∧ bt.get? [i, k] = some (b : Int)) :
    ∃ t', forRange (score_seq kc (⟨[S, KV, G, D], q.data⟩ : Tensor α) bt KV UB) S
        (zeros [S, KV, UB, G, B]) = .ok t' ∧
      ScoresInv q kc bt S KV UB G B D (fun _ _ _ => True) t' := by
  obtain ⟨t', hrun, hinv⟩ := forRange_inv
    (score_seq kc (⟨[S, KV, G, D], q.data⟩ : Tensor α) bt KV UB)
    (fun n s => ScoresInv q kc bt S KV UB G B D (fun i' _ _ => i' < n) s)
    S (zeros [S, KV, UB, G, B])
    ⟨rfl, zeros_wf _, fun i j k g p h => absurd h (Nat.not_lt_zero _)⟩
    (by
      intro i s hi hs
      obtain ⟨s', hs1, hs2⟩ := score_seq_spec q kc bt S H D NB B KV M G UB hq hqwf hkc hkcwf
        hbt hbtwf hH i hi (fun k hk => hvalid i k hi hk) _ s hs
      refine ⟨s', hs1, ?_⟩
      apply ScoresInv_mono q kc bt S KV UB G B D _ _ s' _ hs2
      intro i' j' k' _ _ _ h
      rcases Nat.lt_succ_iff_lt_or_eq.mp h with h3 | h3
      · exact Or.inl h3
      · exact Or.inr h3)
  refine ⟨t', hrun, ?_⟩
  apply ScoresInv_mono q kc bt S KV UB G B D _ _ t' _ hinv
  intro i' _ _ hi' _ _ _
  exact hi'

/-! ## The statements before the loops -/

theorem size_of_sizes (t : Tensor α) (d n : Nat) (h : t.sizes[d]? = some n) :
    t.size d = .ok n := by
  unfold Tensor.size
  rw [h]

/-- The first context length, read the way line 117 reads it. -/
theorem context_len_item (cl : Tensor Int) (S : Nat) (hs : cl.sizes = [S]) (hwf : cl.WF)
    (h32 : ∀ x ∈ cl.data, -2147483648 ≤ x ∧ x < 2147483648) (hS : 0 < S) :
    ∃ e, cl.select0 0 = .ok e ∧ e.item_int = .ok (cl.elem [0]) := by
  have h1 := select0_ok cl S [] hs 0 hS
  simp only [Nat.cast_zero] at h1
  have hlen : cl.data.length = S := by
    unfold Tensor.WF Tensor.numel at hwf
    rw [hwf, hs]; simp
  have hg := get?_rank1 cl S hs hwf 0 hS
  rw [List.getElem?_eq_getElem (by omega)] at hg
  have he : cl.elem [0] = cl.data[0] := by
    unfold Tensor.elem
    rw [hg]; rfl
  have hc : chunk cl.data ([] : List Nat).prod 0 = [cl.data[0]] := by
    apply List.ext_getElem?
    intro y
    cases y with
    | zero =>
      rw [chunk_getElem? _ _ _ _ (by simp)]
      simp
    | succ y =>
      simp [chunk, List.getElem?_take]
  rw [hc] at h1
  refine ⟨_, h1, ?_⟩
  have hr := h32 _ (List.getElem_mem (l := cl.data) (n := 0) (by omega))
  unfold Tensor.item_int Tensor.item Tensor.numel
  simp only [List.prod_nil, if_true]
  rw [he, if_pos hr]

theorem idiv_ok (a : Int) (b : Nat) (hb : 0 < b) : idiv a (b : Int) = .ok (Int.tdiv a b) := by
  unfold idiv
  rw [if_neg (by omega)]

theorem idiv_zero (a : Int) : idiv a ((0 : Nat) : Int) = .error .divideByZero := by
  unfold idiv
  simp

/-- On inputs of the stated shapes whose preliminary statements succeed, the result is
that of the three loops. -/
theorem ref_compute_score_loops [Semiring α] (q kc : Tensor α) (bt cl : Tensor Int)
    (S H D NB B KV M : Nat) (hsh : StatedShapes q kc bt cl S H D NB B KV M)
    (hS : 0 < S) (hKV : 0 < KV) (hB : 0 < B)
    (hview : [S, KV, H / KV, D].prod = [S, H, D].prod) :
    ref_compute_score q kc bt cl =
      forRange (score_seq kc (⟨[S, KV, H / KV, D], q.data⟩ : Tensor α) bt KV
          (to_uint32 (Int.tdiv (cl.elem [0]) B))) S
        (zeros [S, KV, to_uint32 (Int.tdiv (cl.elem [0]) B), H / KV, B]) := by
  obtain ⟨e, he1, he2⟩ := context_len_item cl S hsh.context_lens_sizes hsh.context_lens_wf
    hsh.context_lens_int32 hS
  have q0 := size_of_sizes q 0 S (by rw [hsh.query_sizes]; rfl)
  have q1 := size_of_sizes q 1 H (by rw [hsh.query_sizes]; rfl)
  have q2 := size_of_sizes q 2 D (by rw [hsh.query_sizes]; rfl)
  have k0 := size_of_sizes kc 0 NB (by rw [hsh.key_cache_sizes]; rfl)
  have k1 := size_of_sizes kc 1 B (by rw [hsh.key_cache_sizes]; rfl)
  have k2 := size_of_sizes kc 2 KV (by rw [hsh.key_cache_sizes]; rfl)
  have hv : q.view [S, KV, H / KV, D] = .ok ⟨[S, KV, H / KV, D], q.data⟩ := by
    unfold Tensor.view Tensor.numel
    rw [hsh.query_sizes, if_pos hview]
  have hg : (Int.tdiv (H : Int) (KV : Int)).toNat = H / KV := by
    rw [← Int.ofNat_tdiv, Int.toNat_ofNat]
  unfold ref_compute_score
  simp only [q0, q1, q2, k0, k1, k2, he1, he2, idiv_ok _ KV hKV, idiv_ok _ B hB, hg, hv,
    bind, Except.bind]

/-! ## The result of `ref_compute_score` on valid inputs -/

/-- On valid inputs the call succeeds and every block of the result holds the specified
scores. -/
theorem ref_compute_score_spec [Semiring α] (q kc : Tensor α) (bt cl : Tensor Int)
    (S H D NB B KV M : Nat) (hsh : StatedShapes q kc bt cl S H D NB B KV M)
    (hS : 0 < S) (hKV : 0 < KV) (hB : 0 < B) (hdiv : KV ∣ H)
    (hvalid : ∀ i, i < S → ∀ k, k < to_uint32 (Int.tdiv (cl.elem [0]) B) →
      ∃ b : Nat, b < NB ∧ bt.get? [i, k] = some (b : Int)) :
    ∃ scores, ref_compute_score q kc bt cl = .ok scores ∧
      ScoresInv q kc bt S KV (to_uint32 (Int.tdiv (cl.elem [0]) B)) (H / KV) B D
        (fun _ _ _ => True) scores := by
  have hH : H = KV * (H / KV) := (Nat.mul_div_cancel' hdiv).symm
  have hview : [S, KV, H / KV, D].prod = [S, H, D].prod := by
    simp only [List.prod_cons, List.prod_nil]
    rw [← Nat.mul_assoc KV, ← hH]
  rw [ref_compute_score_loops q kc bt cl S H D NB B KV M hsh hS hKV hB hview]
  exact score_loops_spec q kc bt S H D NB B KV M (H / KV) _ hsh.query_sizes hsh.query_wf
    hsh.key_cache_sizes hsh.key_cache_wf hsh.block_tables_sizes hsh.block_tables_wf hH
    (fun i k hi hk => hvalid i hi k hk)

/-- C1. On inputs of the stated shapes with `B > 0`, `KV > 0`, `KV` dividing `H` and valid
block-table entries at the positions that are read, the call succeeds and, for every
sequence `i`, kv-head `j`, logical block `k` below the block count, group member `g` and
in-block position `p`, the entry `Score[i][j][k][g][p]` is the unscaled sum over `d < D` of
`Query[i][j*G + g][d] * KeyCache[BlockTable[i][k]][p][j][d]`, where `G = H / KV`. -/
theorem ref_compute_score_entry [Semiring α] (q kc : Tensor α) (bt cl : Tensor Int)
    (S H D NB B KV M : Nat) (hsh : StatedShapes q kc bt cl S H D NB B KV M)
    (hB : 0 < B) (hKV : 0 < KV) (hdiv : KV ∣ H)
    (hvalid : ∀ i, i < S → ∀ k, k < to_uint32 (Int.tdiv (cl.elem [0]) B) →
      ∃ b : Nat, b < NB ∧ bt.get? [i, k] = some (b : Int))
    (i j k g p : Nat) (hi : i < S) (hj : j < KV)
    (hk : k < to_uint32 (Int.tdiv (cl.elem [0]) B)) (hg : g < H / KV) (hp : p < B) :
    ∃ scores, ref_compute_score q kc bt cl = .ok scores ∧
      scores.get? [i, j, k, g, p] =
        some (∑ d ∈ Finset.range D,
          q.elem [i, j * (H / KV) + g, d] * kc.elem [(bt.elem [i, k]).toNat, p, j, d]) := by
  obtain ⟨scores, hrun, hinv⟩ := ref_compute_score_spec q kc bt cl S H D NB B KV M hsh
    (Nat.lt_of_le_of_lt (Nat.zero_le i) hi) hKV hB hdiv hvalid
  exact ⟨scores, hrun, hinv.2.2 i j k g p trivial hi hj hk hg hp⟩

theorem scenario1_shapes :
    StatedShapes scenario1_query scenario1_key_cache scenario1_block_tables
      scenario1_context_lens 1 2 4 2 2 1 2 :=
  ⟨rfl, by decide, rfl, by decide, rfl, by decide, rfl, by decide, by decide⟩

theorem scenario1_valid : ∀ i, i < 1 → ∀ k,
    k < to_uint32 (Int.tdiv (scenario1_context_lens.elem [0]) ((2 : Nat) : Int)) →
      ∃ b : Nat, b < 2 ∧ scenario1_block_tables.get? [i, k] = some (b : Int) := by
  decide

/-- Witness for C1: scenario 1, entry `[0][0][1][1][1]`, the dot product of the query
`[1, 2, 3, 4]` with the key `[1, 1, 1, 1]` of physical block 1, which is 10. -/
theorem ref_compute_score_entry_witness :
    ∃ scores, ref_compute_score scenario1_query scenario1_key_cache scenario1_block_tables
        scenario1_context_lens = .ok scores ∧
      scores.get? [0, 0, 1, 1, 1] = some 10 := by
  have h := ref_compute_score_entry scenario1_query scenario1_key_cache
    scenario1_block_tables scenario1_context_lens 1 2 4 2 2 1 2 scenario1_shapes (by decide)
    (by decide) (by decide) scenario1_valid 0 0 1 1 1 (by decide) (by decide) (by decide)
    (by decide) (by decide)
  have e : (∑ d ∈ Finset.range 4,
      scenario1_query.elem [0, 0 * (2 / 1) + 1, d] *
        scenario1_key_cache.elem [(scenario1_block_tables.elem [0, 1]).toNat, 1, 0, d]) =
      10 := by decide
  rw [e] at h
  exact h

theorem to_uint32_tdiv_nat (c B : Nat) (hc : (c : Int) < 2147483648) :
    to_uint32 (Int.tdiv (c : Int) (B : Int)) = c / B := by
  unfold to_uint32
  rw [← Int.ofNat_tdiv]
  have h1 : c / B < 4294967296 := lt_of_le_of_lt (Nat.div_le_self c B) (by omega)
  generalize c / B = x at *
  omega

/-- A first context length that can be read is a 32-bit value of a non-empty batch. -/
theorem first_context_len (cl : Tensor Int) (S : Nat) (hs : cl.sizes = [S]) (hwf : cl.WF)
    (h32 : ∀ x ∈ cl.data, -2147483648 ≤ x ∧ x < 2147483648) (c : Int)
    (hc : cl.get? [0] = some c) : 0 < S ∧ cl.elem [0] = c ∧ c < 2147483648 := by
  have hS : 0 < S := by
    rcases Nat.eq_zero_or_pos S with h0 | h0
    · rw [get?_eq_flat _ cl hwf, hs, h0] at hc
      simp [flat_index] at hc
    · exact h0
  refine ⟨hS, ?_, ?_⟩
  · unfold Tensor.elem
    rw [hc]; rfl
  · rw [get?_rank1 cl S hs hwf 0 hS] at hc
    exact (h32 c (List.getElem?_mem hc)).2

/-- C2. For a valid configuration whose first context length is `c ≥ 0`, the call returns a
five-dimensional array of sizes `[S, KV, ⌊c / B⌋, H / KV, B]`; with `c = 5` and `B = 2`
there are exactly 2 scored blocks (the trailing partial block is dropped), and with `c < B`
the block dimension is 0. -/
theorem ref_compute_score_shape [Semiring α] (q kc : Tensor α) (bt cl : Tensor Int)
    (S H D NB B KV M : Nat) (hsh : StatedShapes q kc bt cl S H D NB B KV M)
    (hB : 0 < B) (hKV : 0 < KV) (hdiv : KV ∣ H) (c : Nat)
    (hc : cl.get? [0] = some (c : Int))
    (hvalid : ∀ i, i < S → ∀ k, k < c / B →
      ∃ b : Nat, b < NB ∧ bt.get? [i, k] = some (b : Int)) :
    ∃ scores, ref_compute_score q kc bt cl = .ok scores ∧
      scores.sizes = [S, KV, c / B, H / KV, B] ∧ scores.dim = 5 ∧
      (c = 5 → B = 2 → scores.sizes = [S, KV, 2, H / KV, 2]) ∧
      (c < B → scores.sizes = [S, KV, 0, H / KV, B]) := by
  obtain ⟨hS, hce, hc32⟩ := first_context_len cl S hsh.context_lens_sizes hsh.context_lens_wf
    hsh.context_lens_int32 _ hc
  have hub : to_uint32 (Int.tdiv (cl.elem [0]) B) = c / B := by
    rw [hce]; exact to_uint32_tdiv_nat c B hc32
  obtain ⟨scores, hrun, hinv⟩ := ref_compute_score_spec q kc bt cl S H D NB B KV M hsh
    hS hKV hB hdiv (by rw [hub]; exact hvalid)
  rw [hub] at hinv
  refine ⟨scores, hrun, hinv.1, ?_, ?_, ?_⟩
  · unfold Tensor.dim
    rw [hinv.1]; rfl
  · intro h5 h2
    rw [hinv.1, h5, h2]
  · intro hlt
    rw [hinv.1, Nat.div_eq_of_lt hlt]

theorem scenario2_shapes :
    StatedShapes scenario1_query scenario1_key_cache scenario2_block_tables
      scenario2_context_lens 1 2 4 2 2 1 3 :=
  ⟨rfl, by decide, rfl, by decide, rfl, by decide, rfl, by decide, by decide⟩

/-- Witness for C2: context length 5 with blocks of 2 tokens gives 2 scored blocks. -/
theorem ref_compute_score_shape_witness :
    ∃ scores, ref_compute_score scenario1_query scenario1_key_cache scenario2_block_tables
        scenario2_context_lens = .ok scores ∧
      scores.sizes = [1, 1, 5 / 2, 2 / 1, 2] ∧ scores.dim = 5 ∧
      (5 = 5 → 2 = 2 → scores.sizes = [1, 1, 2, 2 / 1, 2]) ∧
      (5 < 2 → scores.sizes = [1, 1, 0, 2 / 1, 2]) :=
  ref_compute_score_shape scenario1_query scenario1_key_cache scenario2_block_tables
    scenario2_context_lens 1 2 4 2 2 1 3 scenario2_shapes (by decide) (by decide)
    (by decide) 5 (by decide) (by decide)

/-! ## Which entries exist -/

theorem get?_rank5 (t : Tensor α) (a b c d e : Nat) (hs : t.sizes = [a, b, c, d, e])
    (hwf : t.WF) (i j k g p : Nat) :
    (t.get? [i, j, k, g, p]).isSome ↔ i < a ∧ j < b ∧ k < c ∧ g < d ∧ p < e := by
  rw [get?_eq_flat _ t hwf, hs]
  constructor
  · intro h
    by_cases hi : i < a
    · by_cases hj : j < b
      · by_cases hk : k < c
        · by_cases hg : g < d
          · by_cases hp : p < e
            · exact ⟨hi, hj, hk, hg, hp⟩
            · simp [flat_index, hp] at h
          · simp [flat_index, hg] at h
        · simp [flat_index, hk] at h
      · simp [flat_index, hj] at h
    · simp [flat_index, hi] at h
  · rintro ⟨hi, hj, hk, hg, hp⟩
    cases hf : flat_index [a, b, c, d, e] [i, j, k, g, p] with
    | none => simp [flat_index, hi, hj, hk, hg, hp] at hf
    | some o =>
      have hlt := flat_index_lt _ _ o hf
      unfold Tensor.WF Tensor.numel at hwf
      rw [hs] at hwf
      rw [← hwf] at hlt
      simp only [Option.some_bind]
      rw [List.getElem?_eq_getElem hlt]
      rfl

theorem get?_rank5_none (t : Tensor α) (a b c d e : Nat) (hs : t.sizes = [a, b, c, d, e])
    (hwf : t.WF) (i j k g p : Nat) (h : ¬ (i < a ∧ j < b ∧ k < c ∧ g < d ∧ p < e)) :
    t.get? [i, j, k, g, p] = none := by
  cases hg : t.get? [i, j, k, g, p] with
  | none => rfl
  | some v =>
    exact absurd ((get?_rank5 t a b c d e hs hwf i j k g p).mp (by rw [hg]; rfl)) h

/-- C3, counterexample.  With two sequences of context lengths 2 and 4 and blocks of 2
tokens, the second sequence has `⌊4 / 2⌋ = 2` full blocks but only block 0 is scored for
it; with context lengths 4 and 0 the second sequence has no full block, yet two blocks are
scored for it; and with a stale block-table row for that empty sequence the call fails, so
that no block is scored for the first sequence either. -/
theorem blocks_per_sequence_counterexample :
    (∃ scores, ref_compute_score pair_query pair_key_cache pair_block_tables
        pair_context_lens_short_first = .ok scores ∧
      1 < (pair_context_lens_short_first.elem [1]).toNat / 2 ∧
      scores.get? [1, 0, 1, 0, 0] = none) ∧
    (∃ scores, ref_compute_score pair_query pair_key_cache pair_block_tables
        pair_context_lens_empty_second = .ok scores ∧
      (pair_context_lens_empty_second.elem [1]).toNat / 2 = 0 ∧
      scores.get? [1, 0, 0, 0, 0] = some 15 ∧ scores.get? [1, 0, 1, 0, 0] = some 5) ∧
    (0 < (pair_context_lens_empty_second.elem [0]).toNat / 2 ∧
      ref_compute_score pair_query pair_key_cache pair_block_tables_stale
        pair_context_lens_empty_second = .error .indexError) :=
  ⟨⟨⟨[2, 2, 1, 1, 2], [1, 3, 4, 14, 15, 17, 24, 22]⟩, by decide, by decide, by decide⟩,
    ⟨⟨[2, 2, 2, 1, 2], [1, 3, 3, 5, 4, 14, 12, 10, 15, 17, 5, 11, 24, 22, 8, 30]⟩,
      by decide, by decide, by decide, by decide⟩,
    ⟨by decide, by decide⟩⟩

/-- C3, amended.  For a valid batch (stated shapes, `B > 0`, `KV > 0`, `KV` dividing `H`,
first context length `c ≥ 0`, valid block-table entries at the positions read) and every
sequence `i`, the logical blocks scored for sequence `i` are exactly the `k < ⌊c / B⌋`,
where `c = context_lens[0]` whatever `i` is: every entry of such a block holds the dot
product with the key vector of block `BlockTable[i][k]`, and the result has no entry for
any `k ≥ ⌊c / B⌋`. -/
theorem blocks_from_first_context_len [Semiring α] (q kc : Tensor α) (bt cl : Tensor Int)
    (S H D NB B KV M : Nat) (hsh : StatedShapes q kc bt cl S H D NB B KV M)
    (hB : 0 < B) (hKV : 0 < KV) (hdiv : KV ∣ H) (c : Nat)
    (hc : cl.get? [0] = some (c : Int))
    (hvalid : ∀ i, i < S → ∀ k, k < c / B →
      ∃ b : Nat, b < NB ∧ bt.get? [i, k] = some (b : Int)) :
    ∃ scores, ref_compute_score q kc bt cl = .ok scores ∧
      ∀ i j g p, i < S → j < KV → g < H / KV → p < B → ∀ k,
        (k < c / B →
          scores.get? [i, j, k, g, p] =
            some (∑ d ∈ Finset.range D,
              q.elem [i, j * (H / KV) + g, d] *
                kc.elem [(bt.elem [i, k]).toNat, p, j, d])) ∧
        (c / B ≤ k → scores.get? [i, j, k, g, p] = none) := by
  obtain ⟨hS, hce, hc32⟩ := first_context_len cl S hsh.context_lens_sizes hsh.context_lens_wf
    hsh.context_lens_int32 _ hc
  have hub : to_uint32 (Int.tdiv (cl.elem [0]) B) = c / B := by
    rw [hce]; exact to_uint32_tdiv_nat c B hc32
  obtain ⟨scores, hrun, hinv⟩ := ref_compute_score_spec q kc bt cl S H D NB B KV M hsh
    hS hKV hB hdiv (by rw [hub]; exact hvalid)
  rw [hub] at hinv
  refine ⟨scores, hrun, ?_⟩
  intro i j g p hi hj hg hp k
  constructor
  · intro hk
    exact hinv.2.2 i j k g p trivial hi hj hk hg hp
  · intro hk
    exact get?_rank5_none scores _ _ _ _ _ hinv.1 hinv.2.1 _ _ _ _ _
      (fun h => absurd h.2.2.1 (Nat.not_lt.mpr hk))

theorem pair_shapes_short_first :
    StatedShapes pair_query pair_key_cache pair_block_tables pair_context_lens_short_first
      2 2 2 2 2 2 2 :=
  ⟨rfl, by decide, rfl, by decide, rfl, by decide, rfl, by decide, by decide⟩

/-- Witness for the amended C3: context lengths 2 and 4 with blocks of 2 tokens.  For the
second sequence block 0 is scored (the query `[5, 6]` against the key `[3, 0]` of physical
block 1 gives 15) and block 1 is absent, although that sequence has two full blocks. -/
theorem blocks_from_first_context_len_witness :
    ∃ scores, ref_compute_score pair_query pair_key_cache pair_block_tables
        pair_context_lens_short_first = .ok scores ∧
      scores.get? [1, 0, 0, 0, 0] = some 15 ∧ scores.get? [1, 0, 1, 0, 0] = none := by
  obtain ⟨scores, hrun, hall⟩ := blocks_from_first_context_len pair_query pair_key_cache
    pair_block_tables pair_context_lens_short_first 2 2 2 2 2 2 2 pair_shapes_short_first
    (by decide) (by decide) (by decide) 2 (by decide) (by decide)
  have e : (∑ d ∈ Finset.range 2,
      pair_query.elem [1, 0 * (2 / 2) + 0, d] *
        pair_key_cache.elem [(pair_block_tables.elem [1, 0]).toNat, 0, 0, d]) = 15 := by
    decide
  have h0 := (hall 1 0 0 0 (by decide) (by decide) (by decide) (by decide) 0).1 (by decide)
  have h1 := (hall 1 0 0 0 (by decide) (by decide) (by decide) (by decide) 1).2 (by decide)
  rw [e] at h0
  exact ⟨scores, hrun, h0, h1⟩

/-! ## Frame properties -/

theorem elem_of_get? [Zero α] (t : Tensor α) (idx : List Nat) (v : α)
    (h : t.get? idx = some v) : t.elem idx = v := by
  unfold Tensor.elem
  rw [h]; rfl

/-- C4. On a valid input, redirecting the single block-table entry `BlockTable[i][k]` of a
scored block to another valid physical block `b'` leaves every output entry outside
`Score[i][:][k][:][:]` as it was, and each entry `Score[i][j][k][g][p]` of the second run is
the dot product with the key vector of block `b'`. -/
theorem block_table_indirection [Semiring α] (q kc : Tensor α) (bt bt' cl : Tensor Int)
    (S H D NB B KV M : Nat) (hsh : StatedShapes q kc bt cl S H D NB B KV M)
    (hsh' : StatedShapes q kc bt' cl S H D NB B KV M)
    (hB : 0 < B) (hKV : 0 < KV) (hdiv : KV ∣ H)
    (hvalid : ∀ i, i < S → ∀ k, k < to_uint32 (Int.tdiv (cl.elem [0]) B) →
      ∃ b : Nat, b < NB ∧ bt.get? [i, k] = some (b : Int))
    (i k b' : Nat) (hi : i < S) (hk : k < to_uint32 (Int.tdiv (cl.elem [0]) B))
    (hb' : b' < NB) (hnew : bt'.get? [i, k] = some (b' : Int))
    (hsame : ∀ i' k', ¬ (i' = i ∧ k' = k) → bt'.get? [i', k'] = bt.get? [i', k']) :
    ∃ scores scores', ref_compute_score q kc bt cl = .ok scores ∧
      ref_compute_score q kc bt' cl = .ok scores' ∧
      scores'.sizes = scores.sizes ∧
      (∀ i' j' k' g p, ¬ (i' = i ∧ k' = k) →
        scores'.get? [i', j', k', g, p] = scores.get? [i', j', k', g, p]) ∧
      (∀ j g p, j < KV → g < H / KV → p < B →
        scores'.get? [i, j, k, g, p] =
          some (∑ d ∈ Finset.range D,
            q.elem [i, j * (H / KV) + g, d] * kc.elem [b', p, j, d])) := by
  have hS : 0 < S := Nat.lt_of_le_of_lt (Nat.zero_le i) hi
  have hvalid' : ∀ i₁, i₁ < S → ∀ k₁, k₁ < to_uint32 (Int.tdiv (cl.elem [0]) B) →
      ∃ b : Nat, b < NB ∧ bt'.get? [i₁, k₁] = some (b : Int) := by
    intro i₁ hi₁ k₁ hk₁
    by_cases he : i₁ = i ∧ k₁ = k
    · obtain ⟨e1, e2⟩ := he
      subst e1 e2
      exact ⟨b', hb', hnew⟩
    · rw [hsame i₁ k₁ he]
      exact hvalid i₁ hi₁ k₁ hk₁
  obtain ⟨s, hrun, hinv⟩ := ref_compute_score_spec q kc bt cl S H D NB B KV M hsh
    hS hKV hB hdiv hvalid
  obtain ⟨s', hrun', hinv'⟩ := ref_compute_score_spec q kc bt' cl S H D NB B KV M hsh'
    hS hKV hB hdiv hvalid'
  refine ⟨s, s', hrun, hrun', by rw [hinv.1, hinv'.1], ?_, ?_⟩
  · intro i₁ j₁ k₁ g p hne
    by_cases hr : i₁ < S ∧ j₁ < KV ∧ k₁ < to_uint32 (Int.tdiv (cl.elem [0]) B) ∧
        g < H / KV ∧ p < B
    · obtain ⟨h1, h2, h3, h4, h5⟩ := hr
      rw [hinv.2.2 i₁ j₁ k₁ g p trivial h1 h2 h3 h4 h5,
        hinv'.2.2 i₁ j₁ k₁ g p trivial h1 h2 h3 h4 h5]
      unfold spec_score Tensor.elem
      rw [hsame i₁ k₁ hne]
    · rw [get?_rank5_none s _ _ _ _ _ hinv.1 hinv.2.1 _ _ _ _ _ hr,
        get?_rank5_none s' _ _ _ _ _ hinv'.1 hinv'.2.1 _ _ _ _ _ hr]
  · intro j g p hj hg hp
    rw [hinv'.2.2 i j k g p trivial hi hj hk hg hp]
    unfold spec_score
    rw [elem_of_get? bt' [i, k] _ hnew, Int.toNat_ofNat]

theorem scenario1_shapes_swapped :
    StatedShapes scenario1_query scenario1_key_cache
      (⟨[1, 2], [0, 0]⟩ : Tensor Int) scenario1_context_lens 1 2 4 2 2 1 2 :=
  ⟨rfl, by decide, rfl, by decide, rfl, by decide, rfl, by decide, by decide⟩

/-- Witness for C4: in scenario 1 the entry `BlockTable[0][1]` is redirected from block 1
to block 0. -/
theorem block_table_indirection_witness :
    ∃ scores scores', ref_compute_score scenario1_query scenario1_key_cache
        scenario1_block_tables scenario1_context_lens = .ok scores ∧
      ref_compute_score scenario1_query scenario1_key_cache (⟨[1, 2], [0, 0]⟩ : Tensor Int)
        scenario1_context_lens = .ok scores' ∧
      scores'.sizes = scores.sizes ∧
      (∀ i' j' k' g p, ¬ (i' = 0 ∧ k' = 1) →
        scores'.get? [i', j', k', g, p] = scores.get? [i', j', k', g, p]) ∧
      (∀ j g p, j < 1 → g < 2 / 1 → p < 2 →
        scores'.get? [0, j, 1, g, p] =
          some (∑ d ∈ Finset.range 4,
            scenario1_query.elem [0, j * (2 / 1) + g, d] *
              scenario1_key_cache.elem [0, p, j, d])) :=
  block_table_indirection scenario1_query scenario1_key_cache scenario1_block_tables
    (⟨[1, 2], [0, 0]⟩ : Tensor Int) scenario1_context_lens 1 2 4 2 2 1 2 scenario1_shapes
    scenario1_shapes_swapped (by decide) (by decide) (by decide) scenario1_valid 0 1 0
    (by decide) (by decide) (by decide) (by decide)
    (by
      intro i' k' hne
      have h2 : ∀ t : Tensor Int, t.sizes = [1, 2] → t.WF → t.data[0]? = some 0 →
          ¬ (i' = 0 ∧ k' = 1) → t.get? [i', k'] = if i' = 0 ∧ k' = 0 then some 0 else none := by
        intro t hs hwf h0 hne
        rw [get?_eq_flat _ t hwf, hs]
        by_cases hi : i' < 1
        · by_cases hk : k' < 2
          · have e1 : i' = 0 := by omega
            have e2 : k' = 0 := by omega
            subst e1 e2
            simp [flat_index, h0]
          · have e3 : ¬ (i' = 0 ∧ k' = 0) := by omega
            simp [flat_index, hk, e3]
        · have e3 : ¬ (i' = 0 ∧ k' = 0) := by omega
          simp [flat_index, hi, e3]
      rw [h2 _ rfl (by decide) (by decide) hne,
        h2 scenario1_block_tables rfl (by decide) (by decide) hne])

/-- C7. In a batch sharing one key cache, the output slice `Score[i]` is unchanged when the
query vectors and block-table rows of the other sequences are replaced by other valid
values: it is determined by `Query[i]`, `BlockTable[i]`, the key cache and the block count
(the first context length). -/
theorem no_cross_sequence_contamination [Semiring α] (q q' kc : Tensor α)
    (bt bt' cl cl' : Tensor Int) (S H D NB B KV M : Nat)
    (hsh : StatedShapes q kc bt cl S H D NB B KV M)
    (hsh' : StatedShapes q' kc bt' cl' S H D NB B KV M)
    (hB : 0 < B) (hKV : 0 < KV) (hdiv : KV ∣ H)
    (hvalid : ∀ i, i < S → ∀ k, k < to_uint32 (Int.tdiv (cl.elem [0]) B) →
      ∃ b : Nat, b < NB ∧ bt.get? [i, k] = some (b : Int))
    (hvalid' : ∀ i, i < S → ∀ k, k < to_uint32 (Int.tdiv (cl'.elem [0]) B) →
      ∃ b : Nat, b < NB ∧ bt'.get? [i, k] = some (b : Int))
    (hcount : cl'.elem [0] = cl.elem [0])
    (i : Nat) (hi : i < S)
    (hquery : ∀ h d, q'.get? [i, h, d] = q.get? [i, h, d])
    (hrow : ∀ k, bt'.get? [i, k] = bt.get? [i, k]) :
    ∃ scores scores', ref_compute_score q kc bt cl = .ok scores ∧
      ref_compute_score q' kc bt' cl' = .ok scores' ∧
      scores'.sizes = scores.sizes ∧
      ∀ j k g p, scores'.get? [i, j, k, g, p] = scores.get? [i, j, k, g, p] := by
  have hS : 0 < S := Nat.lt_of_le_of_lt (Nat.zero_le i) hi
  obtain ⟨s, hrun, hinv⟩ := ref_compute_score_spec q kc bt cl S H D NB B KV M hsh
    hS hKV hB hdiv hvalid
  obtain ⟨s', hrun', hinv'⟩ := ref_compute_score_spec q' kc bt' cl' S H D NB B KV M hsh'
    hS hKV hB hdiv hvalid'
  rw [hcount] at hinv'
  refine ⟨s, s', hrun, hrun', by rw [hinv.1, hinv'.1], ?_⟩
  intro j k g p
  by_cases hr : i < S ∧ j < KV ∧ k < to_uint32 (Int.tdiv (cl.elem [0]) B) ∧
      g < H / KV ∧ p < B
  · obtain ⟨h1, h2, h3, h4, h5⟩ := hr
    rw [hinv.2.2 i j k g p trivial h1 h2 h3 h4 h5,
      hinv'.2.2 i j k g p trivial h1 h2 h3 h4 h5]
    unfold spec_score Tensor.elem
    rw [hrow k]
    simp only [hquery]
  · rw [get?_rank5_none s _ _ _ _ _ hinv.1 hinv.2.1 _ _ _ _ _ hr,
      get?_rank5_none s' _ _ _ _ _ hinv'.1 hinv'.2.1 _ _ _ _ _ hr]

/-! ## Dependence on the block table -/

/-- The outcome of the statements before the loops, on inputs of the stated shapes. -/
theorem ref_compute_score_outcome [Semiring α] (q kc : Tensor α) (bt cl : Tensor Int)
    (S H D NB B KV M : Nat) (hsh : StatedShapes q kc bt cl S H D NB B KV M) :
    ref_compute_score q kc bt cl =
      if S = 0 then .error .indexError
      else if KV = 0 then .error .divideByZero
      else if [S, KV, H / KV, D].prod ≠ [S, H, D].prod then .error .runtimeError
      else if B = 0 then .error .divideByZero
      else forRange (score_seq kc (⟨[S, KV, H / KV, D], q.data⟩ : Tensor α) bt KV
          (to_uint32 (Int.tdiv (cl.elem [0]) B))) S
        (zeros [S, KV, to_uint32 (Int.tdiv (cl.elem [0]) B), H / KV, B]) := by
  have q0 := size_of_sizes q 0 S (by rw [hsh.query_sizes]; rfl)
  have q1 := size_of_sizes q 1 H (by rw [hsh.query_sizes]; rfl)
  have q2 := size_of_sizes q 2 D (by rw [hsh.query_sizes]; rfl)
  have k0 := size_of_sizes kc 0 NB (by rw [hsh.key_cache_sizes]; rfl)
  have k1 := size_of_sizes kc 1 B (by rw [hsh.key_cache_sizes]; rfl)
  have k2 := size_of_sizes kc 2 KV (by rw [hsh.key_cache_sizes]; rfl)
  by_cases hS : S = 0
  · rw [if_pos hS]
    have hsel : cl.select0 0 = .error .indexError := by
      unfold Tensor.select0
      rw [hsh.context_lens_sizes, hS]
      rfl
    unfold ref_compute_score
    simp only [q0, q1, q2, k0, k1, k2, hsel, bind, Except.bind]
  · rw [if_neg hS]
    obtain ⟨e, he1, he2⟩ := context_len_item cl S hsh.context_lens_sizes
      hsh.context_lens_wf hsh.context_lens_int32 (Nat.pos_of_ne_zero hS)
    by_cases hKV : KV = 0
    · rw [if_pos hKV]
      unfold ref_compute_score
      simp only [q0, q1, q2, k0, k1, k2, he1, he2, hKV, idiv_zero, bind, Except.bind]
    · rw [if_neg hKV]
      have hg : (Int.tdiv (H : Int) (KV : Int)).toNat = H / KV := by
        rw [← Int.ofNat_tdiv, Int.toNat_ofNat]
      by_cases hview : [S, KV, H / KV, D].prod = [S, H, D].prod
      · rw [if_neg (not_not.mpr hview)]
        by_cases hB : B = 0
        · rw [if_pos hB]
          have hv : q.view [S, KV, H / KV, D] = .ok ⟨[S, KV, H / KV, D], q.data⟩ := by
            unfold Tensor.view Tensor.numel
            rw [hsh.query_sizes, if_pos hview]
          unfold ref_compute_score
          simp only [q0, q1, q2, k0, k1, k2, he1, he2, idiv_ok _ KV (Nat.pos_of_ne_zero hKV),
            hg, hv, hB, idiv_zero, bind, Except.bind]
        · rw [if_neg hB]
          exact ref_compute_score_loops q kc bt cl S H D NB B KV M hsh
            (Nat.pos_of_ne_zero hS) (Nat.pos_of_ne_zero hKV) (Nat.pos_of_ne_zero hB) hview
      · rw [if_pos hview]
        have hv : q.view [S, KV, H / KV, D] = .error .runtimeError := by
          unfold Tensor.view Tensor.numel
          rw [hsh.query_sizes, if_neg hview]
        unfold ref_compute_score
        simp only [q0, q1, q2, k0, k1, k2, he1, he2, idiv_ok _ KV (Nat.pos_of_ne_zero hKV),
          hg, hv, bind, Except.bind]

theorem forRange_congr {σ : Type} (body body' : σ → Nat → Except TorchError σ) :
    ∀ (n : Nat), (∀ m, m < n → ∀ s, body s m = body' s m) →
      ∀ s, forRange body n s = forRange body' n s
  | 0, _, _ => rfl
  | n + 1, h, s => by
    simp only [forRange]
    rw [forRange_congr body body' n (fun m hm => h m (Nat.lt_succ_of_lt hm)) s]
    cases forRange body' n s with
    | error e => rfl
    | ok s' => exact h n (Nat.lt_succ_self n) s'

theorem chunk_one (l : List α) (n : Nat) : chunk l 1 n = (l[n]?).toList := by
  apply List.ext_getElem?
  intro y
  cases y with
  | zero =>
    rw [chunk_getElem? _ _ _ _ Nat.one_pos]
    simp only [Nat.mul_one, Nat.add_zero]
    cases l[n]? <;> rfl
  | succ y =>
    have h1 : (chunk l 1 n)[y + 1]? = none := by
      simp [chunk, List.getElem?_take]
    rw [h1]
    cases l[n]? <;> rfl

/-- Rows of two block tables that agree at position `k` give the same entry tensor. -/
theorem start_block_select_congr (bt bt' : Tensor Int) (S M : Nat) (hs : bt.sizes = [S, M])
    (hs' : bt'.sizes = [S, M]) (hwf : bt.WF) (hwf' : bt'.WF) (i k : Nat) (hi : i < S)
    (h : bt.get? [i, k] = bt'.get? [i, k]) :
    (⟨[M], chunk bt.data [M].prod i⟩ : Tensor Int).select0 (k : Int) =
      (⟨[M], chunk bt'.data [M].prod i⟩ : Tensor Int).select0 (k : Int) := by
  by_cases hk : k < M
  · rw [select0_ok _ M [] rfl k hk, select0_ok _ M [] rfl k hk]
    rw [get?_rank2 bt S M hs hwf i k hi hk, get?_rank2 bt' S M hs' hwf' i k hi hk] at h
    have e : ∀ l : List Int, chunk (chunk l [M].prod i) ([] : List Nat).prod k =
        (l[i * M + k]?).toList := by
      intro l
      have h1 := chunk_chunk l M 1 i k hk
      simp only [Nat.mul_one] at h1
      simp only [List.prod_cons, List.prod_nil, Nat.mul_one]
      rw [h1, chunk_one]
    simp only
    rw [e, e, h]
  · unfold Tensor.select0
    simp only [wrap_index_nat_ge k M (Nat.le_of_not_lt hk)]

theorem score_seq_congr [Semiring α] (kc tq : Tensor α) (bt bt' : Tensor Int)
    (S M KV UB : Nat) (hs : bt.sizes = [S, M]) (hs' : bt'.sizes = [S, M]) (hwf : bt.WF)
    (hwf' : bt'.WF) (i : Nat) (hi : i < S)
    (h : ∀ k, k < UB → bt.get? [i, k] = bt'.get? [i, k]) (s : Tensor α) :
    score_seq kc tq bt KV UB s i = score_seq kc tq bt' KV UB s i := by
  unfold score_seq
  rw [select0_ok bt S [M] hs i hi, select0_ok bt' S [M] hs' i hi]
  simp only [bind, Except.bind]
  apply forRange_congr
  intro j _ s₁
  unfold score_head
  simp only [bind, Except.bind]
  cases tq.select0 (i : Int) with
  | error e => rfl
  | ok t₁ =>
    simp only
    cases t₁.select0 (j : Int) with
    | error e => rfl
    | ok qs =>
      simp only
      apply forRange_congr
      intro k hk s₂
      unfold score_block
      rw [start_block_select_congr bt bt' S M hs hs' hwf hwf' i k hi (h k hk)]

/-- C5, counterexample.  With context lengths 4 and 0 and blocks of 2 tokens, three block
tables agree on the first `⌈context_lens[i] / 2⌉` entries of every row `i` (both entries of
row 0, no entry of row 1); the first two give different scores for the second sequence, and
the third makes the call fail. -/
theorem block_table_padding_counterexample :
    (∀ i, i < 2 → ∀ k, k < ((pair_context_lens_empty_second.elem [i]).toNat + 2 - 1) / 2 →
      pair_block_tables.get? [i, k] = pair_block_tables_same.get? [i, k] ∧
      pair_block_tables.get? [i, k] = pair_block_tables_stale.get? [i, k]) ∧
    (∃ scores scores', ref_compute_score pair_query pair_key_cache pair_block_tables
        pair_context_lens_empty_second = .ok scores ∧
      ref_compute_score pair_query pair_key_cache pair_block_tables_same
        pair_context_lens_empty_second = .ok scores' ∧
      scores.get? [1, 0, 0, 0, 0] = some 15 ∧ scores'.get? [1, 0, 0, 0, 0] = some 5) ∧
    ref_compute_score pair_query pair_key_cache pair_block_tables_stale
      pair_context_lens_empty_second = .error .indexError :=
  ⟨by decide,
    ⟨⟨[2, 2, 2, 1, 2], [1, 3, 3, 5, 4, 14, 12, 10, 15, 17, 5, 11, 24, 22, 8, 30]⟩,
      ⟨[2, 2, 2, 1, 2], [1, 3, 3, 5, 4, 14, 12, 10, 5, 11, 15, 17, 8, 30, 24, 22]⟩,
      by decide, by decide, by decide, by decide⟩,
    by decide⟩

/-- C5, amended.  On inputs of the stated shapes, the outcome of the call (the scores, or
the failure) does not depend on the block-table entries at positions at or beyond the block
count computed from `context_lens[0]`: two block tables that agree on the first
`useful_blocks` entries of every row give the same outcome. -/
theorem block_table_padding_unused [Semiring α] (q kc : Tensor α) (bt bt' cl : Tensor Int)
    (S H D NB B KV M : Nat) (hsh : StatedShapes q kc bt cl S H D NB B KV M)
    (hsh' : StatedShapes q kc bt' cl S H D NB B KV M)
    (hagree : ∀ i, i < S → ∀ k, k < to_uint32 (Int.tdiv (cl.elem [0]) B) →
      bt.get? [i, k] = bt'.get? [i, k]) :
    ref_compute_score q kc bt cl = ref_compute_score q kc bt' cl := by
  rw [ref_compute_score_outcome q kc bt cl S H D NB B KV M hsh,
    ref_compute_score_outcome q kc bt' cl S H D NB B KV M hsh']
  rw [forRange_congr _ _ S (fun i hi s =>
    score_seq_congr kc _ bt bt' S M KV _ hsh.block_tables_sizes hsh'.block_tables_sizes
      hsh.block_tables_wf hsh'.block_tables_wf i hi (hagree i hi) s)]

theorem scenario2_shapes_padded :
    StatedShapes scenario1_query scenario1_key_cache (⟨[1, 3], [1, 0, 99]⟩ : Tensor Int)
      scenario2_context_lens 1 2 4 2 2 1 3 :=
  ⟨rfl, by decide, rfl, by decide, rfl, by decide, rfl, by decide, by decide⟩

/-- Witness for the amended C5: context length 5 with blocks of 2 tokens; the third entry of
the row is changed from block 1 to the stale value 99. -/
theorem block_table_padding_unused_witness :
    ref_compute_score scenario1_query scenario1_key_cache scenario2_block_tables
        scenario2_context_lens =
      ref_compute_score scenario1_query scenario1_key_cache
        (⟨[1, 3], [1, 0, 99]⟩ : Tensor Int) scenario2_context_lens :=
  block_table_padding_unused scenario1_query scenario1_key_cache scenario2_block_tables
    (⟨[1, 3], [1, 0, 99]⟩ : Tensor Int) scenario2_context_lens 1 2 4 2 2 1 3
    scenario2_shapes scenario2_shapes_padded (by decide)

/-! ## Completion and rejection -/

theorem get?_rank2_elem [Zero α] (t : Tensor α) (n m : Nat) (hs : t.sizes = [n, m])
    (hwf : t.WF) (r c : Nat) (hr : r < n) (hc : c < m) :
    t.get? [r, c] = some (t.elem [r, c]) := by
  have hlen : t.data.length = n * m := by
    unfold Tensor.WF Tensor.numel at hwf
    rw [hwf, hs]; simp
  have hg := get?_rank2 t n m hs hwf r c hr hc
  rw [List.getElem?_eq_getElem (by rw [hlen]; exact offset_lt hr hc)] at hg
  unfold Tensor.elem
  rw [hg]; rfl

theorem get?_rank1_elem [Zero α] (t : Tensor α) (n : Nat) (hs : t.sizes = [n]) (hwf : t.WF)
    (i : Nat) (hi : i < n) : t.get? [i] = some (t.elem [i]) := by
  have hlen : t.data.length = n := by
    unfold Tensor.WF Tensor.numel at hwf
    rw [hwf, hs]; simp
  have hg := get?_rank1 t n hs hwf i hi
  rw [List.getElem?_eq_getElem (by omega)] at hg
  unfold Tensor.elem
  rw [hg]; rfl

/-- C6, counterexample.  Context lengths 4 and 0 with blocks of 2 tokens, 2 physical blocks,
2 query heads over 2 kv-heads and a 2-column block table satisfy the data-model
invariants (sizes `S = 2`, `H = 2`, `D = 2`, `NB = 2`, `B = 2`, `KV = 2`, `M = 2`), and the first
`⌈context_lens[i] / 2⌉` entries of every row `i` are valid; the call nevertheless reads the
stale entry `BlockTable[1][0] = 7` and fails with an index error. -/
theorem never_out_of_range_counterexample :
    StatedShapes pair_query pair_key_cache pair_block_tables_stale
      pair_context_lens_empty_second 2 2 2 2 2 2 2 ∧
    (0 < 2 ∧ 2 ∣ 2) ∧
    (∀ i, i < 2 → 0 ≤ pair_context_lens_empty_second.elem [i] ∧
      pair_context_lens_empty_second.elem [i] ≤ 2 * 2) ∧
    (∀ i, i < 2 → ∀ k, k < ((pair_context_lens_empty_second.elem [i]).toNat + 2 - 1) / 2 →
      0 ≤ pair_block_tables_stale.elem [i, k] ∧ pair_block_tables_stale.elem [i, k] < 2) ∧
    ref_compute_score pair_query pair_key_cache pair_block_tables_stale
      pair_context_lens_empty_second = .error .indexError :=
  ⟨⟨rfl, by decide, rfl, by decide, rfl, by decide, rfl, by decide, by decide⟩,
    by decide, by decide, by decide, by decide⟩

/-- C6, amended.  On inputs of the stated shapes with at least one sequence, `B > 0`,
`KV > 0`, `KV` dividing `H`, `0 ≤ context_lens[0] ≤ M * B`, and the first
`⌊context_lens[0] / B⌋` entries of every block-table row in `[0, NB)`, every index the
call uses is in bounds: it completes and returns the score array. -/
theorem ref_compute_score_completes [Semiring α] (q kc : Tensor α) (bt cl : Tensor Int)
    (S H D NB B KV M : Nat) (hsh : StatedShapes q kc bt cl S H D NB B KV M)
    (hS : 0 < S) (hB : 0 < B) (hKV : 0 < KV) (hdiv : KV ∣ H)
    (hlen : 0 ≤ cl.elem [0] ∧ cl.elem [0] ≤ ((M * B : Nat) : Int))
    (hentries : ∀ i, i < S → ∀ k, k < (cl.elem [0]).toNat / B →
      0 ≤ bt.elem [i, k] ∧ bt.elem [i, k] < (NB : Int)) :
    ∃ scores, ref_compute_score q kc bt cl = .ok scores ∧
      scores.sizes = [S, KV, (cl.elem [0]).toNat / B, H / KV, B] := by
  have hc : cl.get? [0] = some (((cl.elem [0]).toNat : Nat) : Int) := by
    rw [get?_rank1_elem cl S hsh.context_lens_sizes hsh.context_lens_wf 0 hS,
      Int.toNat_of_nonneg hlen.1]
  obtain ⟨_, hce, hc32⟩ := first_context_len cl S hsh.context_lens_sizes
    hsh.context_lens_wf hsh.context_lens_int32 _ hc
  have hub : to_uint32 (Int.tdiv (cl.elem [0]) B) = (cl.elem [0]).toNat / B := by
    rw [hce]
    exact to_uint32_tdiv_nat _ B (by rw [← hce] at hc32; rw [Int.toNat_of_nonneg hlen.1]; exact hc32)
  have hM : (cl.elem [0]).toNat / B ≤ M := by
    apply Nat.div_le_of_le_mul
    have h1 : (cl.elem [0]).toNat ≤ M * B := by
      have := hlen.2
      omega
    rw [Nat.mul_comm]
    exact h1
  obtain ⟨scores, hrun, hinv⟩ := ref_compute_score_spec q kc bt cl S H D NB B KV M hsh
    hS hKV hB hdiv (by
      rw [hub]
      intro i hi k hk
      obtain ⟨h0, h1⟩ := hentries i hi k hk
      refine ⟨(bt.elem [i, k]).toNat, by omega, ?_⟩
      rw [get?_rank2_elem bt S M hsh.block_tables_sizes hsh.block_tables_wf i k hi
        (Nat.lt_of_lt_of_le hk hM), Int.toNat_of_nonneg h0])
  rw [hub] at hinv
  exact ⟨scores, hrun, hinv.1⟩

theorem pair_shapes_empty_second :
    StatedShapes pair_query pair_key_cache pair_block_tables
      pair_context_lens_empty_second 2 2 2 2 2 2 2 :=
  ⟨rfl, by decide, rfl, by decide, rfl, by decide, rfl, by decide, by decide⟩

/-- Witness for the amended C6: two sequences with context lengths 4 and 0, both rows of
the block table valid in their first two entries. -/
theorem ref_compute_score_completes_witness :
    ∃ scores, ref_compute_score pair_query pair_key_cache pair_block_tables
        pair_context_lens_empty_second = .ok scores ∧
      scores.sizes = [2, 2, (pair_context_lens_empty_second.elem [0]).toNat / 2, 2 / 2, 2] :=
  ref_compute_score_completes pair_query pair_key_cache pair_block_tables
    pair_context_lens_empty_second 2 2 2 2 2 2 2 pair_shapes_empty_second (by decide)
    (by decide) (by decide) (by decide) (by decide) (by decide)

/-- C9. The classifier returns `fp16` exactly for `Half`, `bf16` exactly for `BFloat16`,
and fails with the internal assertion, returning no value, exactly for every other scalar
type. -/
theorem aten_to_Xetla_dtype_spec (t : ScalarType) :
    (aten_to_Xetla_dtype t = .ok XetlaType.fp16 ↔ t = ScalarType.Half) ∧
    (aten_to_Xetla_dtype t = .ok XetlaType.bf16 ↔ t = ScalarType.BFloat16) ∧
    (aten_to_Xetla_dtype t = .error .internalAssert ↔
      (t ≠ ScalarType.Half ∧ t ≠ ScalarType.BFloat16)) ∧
    ((∃ x, aten_to_Xetla_dtype t = .ok x) ↔
      (t = ScalarType.Half ∨ t = ScalarType.BFloat16)) := by
  cases t <;> simp [aten_to_Xetla_dtype]

/-! ## The benchmark configuration -/

theorem ones_wf [One α] (sizes : List Nat) : (ones sizes : Tensor α).WF := by
  unfold Tensor.WF Tensor.numel ones
  simp

theorem select2_ok (t : Tensor α) (a b c : Nat) (hs : t.sizes = [a, b, c]) (i j : Nat)
    (hi : i < a) (hj : j < b) :
    ∃ s1 s2, t.select0 (i : Int) = .ok s1 ∧ s1.select0 (j : Int) = .ok s2 ∧
      s2.sizes = [c] :=
  ⟨_, _, select0_ok t a [b, c] hs i hi, select0_ok _ b [c] rfl j hj, rfl⟩

/-- The result of `t[i][j] = src` on a well-formed three-dimensional tensor. -/
theorem put2_spec (t s1 src : Tensor α) (a b c : Nat) (hs : t.sizes = [a, b, c])
    (hwf : t.WF) (i j : Nat) (hi : i < a) (hj : j < b) (h1 : t.select0 (i : Int) = .ok s1)
    (hsrc : src.sizes = [c]) (hsrcwf : src.WF) :
    (t.put0 i (s1.put0 j src)).sizes = [a, b, c] ∧ (t.put0 i (s1.put0 j src)).WF ∧
      (∀ rest, (t.put0 i (s1.put0 j src)).get? (i :: j :: rest) = src.get? rest) ∧
      (∀ i' j' rest, i' < a → j' < b → ¬ (i' = i ∧ j' = j) →
        (t.put0 i (s1.put0 j src)).get? (i' :: j' :: rest) = t.get? (i' :: j' :: rest)) := by
  have h1' := select0_ok t a [b, c] hs i hi
  have w1 := select0_wf t a [b, c] hs hwf i hi
  rw [h1] at h1'
  have e1 : s1 = ⟨[b, c], chunk t.data [b, c].prod i⟩ := by
    injection h1'
  rw [← e1] at w1
  have z1 : s1.sizes = [b, c] := by rw [e1]
  have p2wf := put0_wf s1 b [c] z1 w1 j hj src hsrc hsrcwf
  have p2s : (s1.put0 j src).sizes = [b, c] := by rw [put0_sizes, z1]
  have p1wf := put0_wf t a [b, c] hs hwf i hi _ p2s p2wf
  refine ⟨by rw [put0_sizes, hs], p1wf, ?_, ?_⟩
  · intro rest
    rw [get?_cons_of_select0 _ _ i _ (select0_put0_same t a _ hs hwf i hi _ p2s p2wf),
      get?_cons_of_select0 _ _ j _ (select0_put0_same s1 b _ z1 w1 j hj _ hsrc hsrcwf)]
  · intro i' j' rest hi' hj' hne
    by_cases e1 : i' = i
    · subst e1
      rw [get?_cons_of_select0 _ _ i' _ (select0_put0_same t a _ hs hwf i' hi _ p2s p2wf),
        get?_cons_of_select0 _ _ i' _ h1]
      have e2 : j' ≠ j := fun e => hne ⟨rfl, e⟩
      simp only [Tensor.get?, select0_put0_other s1 b _ z1 w1 j hj _ hsrc hsrcwf j' hj' e2]
    · simp only [Tensor.get?, select0_put0_other t a _ hs hwf i hi _ p2s p2wf i' hi' e1]

theorem fill__get? (t : Tensor α) (c : Nat) (hs : t.sizes = [c]) (v : α) :
    (t.fill_ v).sizes = [c] ∧ (t.fill_ v).WF ∧
      ∀ d, d < c → (t.fill_ v).get? [d] = some v := by
  have hwf : (t.fill_ v).WF := by
    unfold Tensor.WF Tensor.fill_
    simp [Tensor.numel]
  have hsz : (t.fill_ v).sizes = [c] := by
    unfold Tensor.fill_
    exact hs
  refine ⟨hsz, hwf, ?_⟩
  intro d hd
  rw [get?_rank1 _ c hsz hwf d hd]
  unfold Tensor.fill_ Tensor.numel
  rw [hs]
  simp [List.getElem?_replicate, hd]

/-- After `init_query`, every element of head `h` of sequence 0 is `h + 1`. -/
theorem init_query_spec :
    ∃ query, init_query (ones [num_seqs, num_heads, head_size]) = .ok query ∧
      query.sizes = [1, 16, 128] ∧ query.WF ∧
      ∀ h d, h < 16 → d < 128 → query.get? [0, h, d] = some ((h : Int) + 1) :=
  forRange_inv
    (fun (query : Tensor Int) i => do
      let q0 ← query.select0 0
      let q0i ← q0.select0 i
      pure (query.put0 0 (q0.put0 i (q0i.fill_ ((i : Int) + 1)))))
    (fun n (s : Tensor Int) => s.sizes = [1, 16, 128] ∧ s.WF ∧
      ∀ h d, h < n → d < 128 → s.get? [0, h, d] = some ((h : Int) + 1))
    16 (ones [num_seqs, num_heads, head_size])
    ⟨rfl, ones_wf _, fun h d hh _ => absurd hh (Nat.not_lt_zero h)⟩
    (by
      intro n s hn ⟨hs, hwf, hval⟩
      obtain ⟨s1, s2, h1, h2, z2⟩ := select2_ok s 1 16 128 hs 0 n Nat.one_pos hn
      obtain ⟨f1, f2, f3⟩ := fill__get? s2 128 z2 ((n : Int) + 1)
      obtain ⟨p1, p2, p3, p4⟩ := put2_spec s s1 (s2.fill_ ((n : Int) + 1)) 1 16 128 hs hwf
        0 n Nat.one_pos hn h1 f1 f2
      simp only [Nat.cast_zero] at h1
      refine ⟨s.put0 0 (s1.put0 n (s2.fill_ ((n : Int) + 1))), ?_, p1, p2, ?_⟩
      · simp only [h1, h2, bind, Except.bind, pure, Except.pure]
      · intro h d hh hd
        by_cases e : h = n
        · subst e
          rw [p3, f3 d hd]
        · rw [p4 0 h [d] Nat.one_pos (by omega) (fun c => e c.2)]
          exact hval h d (by omega) hd)

/-- The block table of `main`: row 0 lists the blocks `0, 1, …, 799`. -/
theorem main_block_tables_spec :
    ∃ row bt, (ones [num_seqs, max_blocks_per_seq] : Tensor Int).select0 0 = .ok row ∧
      row.copy_ (arange max_blocks_per_seq) = .ok bt ∧
      ((ones [num_seqs, max_blocks_per_seq] : Tensor Int).put0 0 bt).sizes = [1, 800] ∧
      ((ones [num_seqs, max_blocks_per_seq] : Tensor Int).put0 0 bt).WF ∧
      ∀ k, k < 800 →
        ((ones [num_seqs, max_blocks_per_seq] : Tensor Int).put0 0 bt).get? [0, k] =
          some (k : Int) := by
  have hs : (ones [num_seqs, max_blocks_per_seq] : Tensor Int).sizes = [1, 800] := rfl
  have hwf := ones_wf (α := Int) [num_seqs, max_blocks_per_seq]
  have h1 := select0_ok _ 1 [800] hs 0 Nat.one_pos
  have ha : (arange max_blocks_per_seq).sizes = [800] := rfl
  have hawf : (arange max_blocks_per_seq).WF := by
    unfold Tensor.WF Tensor.numel arange
    simp
  have hc := copy__same_sizes
    (⟨[800], chunk (ones [num_seqs, max_blocks_per_seq] : Tensor Int).data [800].prod 0⟩ :
      Tensor Int) (arange max_blocks_per_seq) ha
  have hp := select0_put0_same _ 1 [800] hs hwf 0 Nat.one_pos _ ha hawf
  simp only [Nat.cast_zero] at h1 hp
  refine ⟨_, _, h1, hc, by rw [put0_sizes, hs], put0_wf _ 1 [800] hs hwf 0 Nat.one_pos _ ha hawf,
    ?_⟩
  intro k hk
  have hp' : ((ones [num_seqs, max_blocks_per_seq] : Tensor Int).put0 0
      (arange max_blocks_per_seq)).select0 ((0 : Nat) : Int) =
      .ok (arange max_blocks_per_seq) := by
    simp only [Nat.cast_zero]
    exact hp
  rw [get?_cons_of_select0 _ _ 0 _ hp', get?_rank1 _ 800 ha hawf k hk]
  unfold arange max_blocks_per_seq
  simp [List.getElem?_range hk]

theorem ones_elem_rank4 (a b c d : Nat) (i j k l : Nat) (hi : i < a) (hj : j < b)
    (hk : k < c) (hl : l < d) : (ones [a, b, c, d] : Tensor Int).elem [i, j, k, l] = 1 := by
  have ho : ((i * b + j) * c + k) * d + l < [a, b, c, d].prod := by
    have h1 := offset_lt (offset_lt (offset_lt hi hj) hk) hl
    have h2 : [a, b, c, d].prod = a * b * c * d := by
      simp only [List.prod_cons, List.prod_nil]
      ring
    rw [h2]
    exact h1
  apply elem_of_get?
  rw [get?_rank4 _ a b c d rfl (ones_wf _) i j k l hi hj hk hl]
  unfold ones
  simp only
  rw [List.getElem?_replicate, if_pos ho]

/-- C10. In the configuration of `main` (one sequence, 16 query heads of size 128 over 2
kv-heads, blocks of 64 tokens, context length 512, block-table row `0, 1, …, 799`, a key
cache of ones and query head `h` filled with `h + 1`), with exact arithmetic,
`ref_compute_score` returns an array of sizes `[1, 2, 8, 8, 64]` whose entry
`[0][j][k][g][p]` is `128 * (8 * j + g + 1)` whatever `k` and `p`; in the printed slice
`ref_scores[0][0][0]`, row `g` is constantly `128 * (g + 1)`. -/
theorem main_ref_scores_spec :
    ∃ scores, main_ref_scores = .ok scores ∧ scores.sizes = [1, 2, 8, 8, 64] ∧
      (∀ j k g p, j < 2 → k < 8 → g < 8 → p < 64 →
        scores.get? [0, j, k, g, p] = some (128 * (8 * (j : Int) + (g : Int) + 1))) ∧
      (∀ g p, g < 8 → p < 64 →
        scores.get? [0, 0, 0, g, p] = some (128 * ((g : Int) + 1))) := by
  obtain ⟨query, hq, hqs, hqwf, hqv⟩ := init_query_spec
  obtain ⟨row, btrow, hrow, hcopy, hbts, hbtwf, hbtv⟩ := main_block_tables_spec
  have hce : ((ones [num_seqs] : Tensor Int).fill_
      ((max_num_partitions * partition_size : Nat) : Int)).elem [0] = 512 := by decide
  have hub : to_uint32 (Int.tdiv (512 : Int) ((64 : Nat) : Int)) = 8 := by decide
  have hsh : StatedShapes query
      (ones [num_blocks, block_size, num_kv_heads, head_size] : Tensor Int)
      ((ones [num_seqs, max_blocks_per_seq] : Tensor Int).put0 0 btrow)
      ((ones [num_seqs] : Tensor Int).fill_
        ((max_num_partitions * partition_size : Nat) : Int))
      1 16 128 3146 64 2 800 :=
    ⟨hqs, hqwf, rfl, ones_wf _, hbts, hbtwf, rfl, by decide, by decide⟩
  obtain ⟨scores, hrun, hinv⟩ := ref_compute_score_spec query _ _ _ 1 16 128 3146 64 2 800
    hsh Nat.one_pos (by decide) (by decide) (by decide) (by
      rw [hce, hub]
      intro i hi k hk
      have e : i = 0 := by omega
      subst e
      exact ⟨k, by omega, hbtv k (by omega)⟩)
  rw [hce, hub] at hinv
  have hentry : ∀ j k g p, j < 2 → k < 8 → g < 8 → p < 64 →
      scores.get? [0, j, k, g, p] = some (128 * (8 * (j : Int) + (g : Int) + 1)) := by
    intro j k g p hj hk hg hp
    rw [hinv.2.2 0 j k g p trivial Nat.one_pos hj hk hg hp]
    congr 1
    unfold spec_score
    rw [elem_of_get? _ [0, k] _ (hbtv k (by omega)), Int.toNat_ofNat]
    have hterm : ∀ d ∈ Finset.range 128,
        query.elem [0, j * (16 / 2) + g, d] *
          (ones [num_blocks, block_size, num_kv_heads, head_size] : Tensor Int).elem
            [k, p, j, d] = 8 * (j : Int) + (g : Int) + 1 := by
      intro d hd
      have hd' : d < 128 := Finset.mem_range.mp hd
      have hone : (ones [num_blocks, block_size, num_kv_heads, head_size] : Tensor Int).elem
          [k, p, j, d] = 1 := ones_elem_rank4 3146 64 2 128 k p j d (by omega) hp hj hd'
      rw [elem_of_get? query _ _ (hqv (j * (16 / 2) + g) d (by omega) hd'), hone]
      push_cast
      ring
    rw [Finset.sum_congr rfl hterm, Finset.sum_const, Finset.card_range]
    simp only [nsmul_eq_mul, Nat.cast_ofNat]
  refine ⟨scores, ?_, hinv.1, hentry, ?_⟩
  · unfold main_ref_scores
    simp only [hrow, hcopy, hq, bind, Except.bind]
    exact hrun
  · intro g p hg hp
    rw [hentry 0 0 g p (by decide) (by decide) hg hp]
    simp

theorem get?_congr_select0 (t t' : Tensor α) (i : Nat)
    (h : t'.select0 (i : Int) = t.select0 (i : Int)) (rest : List Nat) :
    t'.get? (i :: rest) = t.get? (i :: rest) := by
  simp only [Tensor.get?, h]

theorem pair_shapes_other :
    StatedShapes pair_query_other pair_key_cache pair_block_tables_same
      pair_context_lens_empty_second 2 2 2 2 2 2 2 :=
  ⟨rfl, by decide, rfl, by decide, rfl, by decide, rfl, by decide, by decide⟩

/-- Witness for C7: the query vectors and the block-table row of the second sequence are
replaced; the scores of the first sequence stay the same. -/
theorem no_cross_sequence_contamination_witness :
    ∃ scores scores', ref_compute_score pair_query pair_key_cache pair_block_tables
        pair_context_lens_empty_second = .ok scores ∧
      ref_compute_score pair_query_other pair_key_cache pair_block_tables_same
        pair_context_lens_empty_second = .ok scores' ∧
      scores'.sizes = scores.sizes ∧
      ∀ j k g p, scores'.get? [0, j, k, g, p] = scores.get? [0, j, k, g, p] :=
  no_cross_sequence_contamination pair_query pair_query_other pair_key_cache
    pair_block_tables pair_block_tables_same pair_context_lens_empty_second
    pair_context_lens_empty_second 2 2 2 2 2 2 2 pair_shapes_empty_second pair_shapes_other
    (by decide) (by decide) (by decide) (by decide) (by decide) rfl 0 (by decide)
    (fun h d => get?_congr_select0 _ _ 0 (by decide) [h, d])
    (fun k => get?_congr_select0 _ _ 0 (by decide) [k])

end PagedAttention
